import Mathlib

/-!
Verification of the seeded single-elimination bracket builder in
`src/procompetidor.py` (classes `Athlete`, `Match`, `SeedingGenerator`,
`RoundNamer`, `TournamentBracket`).

Python loops are embedded as structural recursions (with an explicit fuel
argument where the Python recursion is not structural); Python `int` is
embedded as `Nat`/`Int`; `None`-able values as `Option`.  Mutation of the
bracket array / match objects is embedded as explicit state passing.

The float computation `2 ** math.ceil(math.log2(n))` is embedded with exact
arithmetic as `2 ^ Nat.clog 2 n` (the two agree for every input that does not
exceed double-precision range).
-/

set_option maxRecDepth 10000

namespace Procompetidor

/-- Embeds the Python class `Athlete` (field for field). -/
structure Athlete where
  name : String
  team : String
  seed : Int
  age_category : String
  weight_category : String
  belt : String
  gender : String
  deriving DecidableEq

instance : Inhabited Athlete := ⟨⟨"", "", 0, "", "", "", ""⟩⟩

/-- Embeds the Python class `Match`: two optional athlete slots, an optional
winner (initially `None`) and a number (initially `0`). -/
structure Match where
  athlete1 : Option Athlete
  athlete2 : Option Athlete
  winner : Option Athlete
  number : Nat
  deriving DecidableEq

instance : Inhabited Match := ⟨⟨none, none, none, 0⟩⟩

/-- Embeds `Match.process_bye`: sets the winner when exactly one athlete slot
is populated.  (The Python method mutates `self` and returns the winner; the
embedding returns the updated match.) -/
def Match.process_bye (m : Match) : Match :=
  if m.athlete1.isSome && !m.athlete2.isSome then ⟨m.athlete1, m.athlete2, m.athlete1, m.number⟩
  else if m.athlete2.isSome && !m.athlete1.isSome then ⟨m.athlete1, m.athlete2, m.athlete2, m.number⟩
  else m

/-- Embeds `Match.is_bye`: `bool(athlete1) != bool(athlete2)`. -/
def Match.is_bye (m : Match) : Bool :=
  m.athlete1.isSome != m.athlete2.isSome

/-- Embeds `Match.has_both_athletes`: `bool(athlete1 and athlete2)`. -/
def Match.has_both_athletes (m : Match) : Bool :=
  m.athlete1.isSome && m.athlete2.isSome

/-- Embeds `SeedingGenerator.generate_seeding_order`.  The Python function
recurses on `bracket_size // 2` when the size is not in the hard-coded table;
that recursion is embedded with a fuel argument (`fuel = bracket_size`
suffices for every input on which the Python function terminates; on
`bracket_size = 0`, where Python does not terminate, the embedding returns
`[]`). -/
def gsoAux (fuel : Nat) (bracket_size : Nat) : List Nat :=
  if bracket_size = 1 then [0]
  else if bracket_size = 2 then [0, 1]
  else if bracket_size = 4 then [0, 3, 1, 2]
  else if bracket_size = 8 then [0, 7, 3, 4, 1, 6, 2, 5]
  else if bracket_size = 16 then [0, 15, 7, 8, 3, 12, 4, 11, 1, 14, 6, 9, 2, 13, 5, 10]
  else if bracket_size = 32 then
    [0, 31, 15, 16, 7, 24, 8, 23, 3, 28, 12, 19, 4, 27, 11, 20,
     1, 30, 14, 17, 6, 25, 9, 22, 2, 29, 13, 18, 5, 26, 10, 21]
  else if bracket_size = 64 then
    [0, 63, 31, 32, 15, 48, 16, 47, 7, 56, 24, 39, 8, 55, 23, 40,
     3, 60, 28, 35, 12, 51, 19, 44, 4, 59, 27, 36, 11, 52, 20, 43,
     1, 62, 30, 33, 14, 49, 17, 46, 6, 57, 25, 38, 9, 54, 22, 41,
     2, 61, 29, 34, 13, 50, 18, 45, 5, 58, 26, 37, 10, 53, 21, 42]
  else if bracket_size = 128 then
    [0, 127, 63, 64, 31, 96, 32, 95, 15, 112, 48, 79, 16, 111, 47, 80,
     7, 120, 56, 71, 24, 103, 39, 88, 8, 119, 55, 72, 23, 104, 40, 87,
     3, 124, 60, 67, 28, 99, 35, 92, 12, 115, 51, 76, 19, 108, 44, 83,
     4, 123, 59, 68, 27, 100, 36, 91, 11, 116, 52, 75, 20, 107, 43, 84,
     1, 126, 62, 65, 30, 97, 33, 94, 14, 113, 49, 78, 17, 110, 46, 81,
     6, 121, 57, 70, 25, 102, 38, 89, 9, 118, 54, 73, 22, 105, 41, 86,
     2, 125, 61, 66, 29, 98, 34, 93, 13, 114, 50, 77, 18, 109, 45, 82,
     5, 122, 58, 69, 26, 101, 37, 90, 10, 117, 53, 74, 21, 106, 42, 85]
  else
    match fuel with
    | 0 => []
    | fuel' + 1 =>
      (gsoAux fuel' (bracket_size / 2)).flatMap (fun p => [p, bracket_size - 1 - p])

/-- `SeedingGenerator.generate_seeding_order` (see `gsoAux`). -/
def generate_seeding_order (bracket_size : Nat) : List Nat :=
  gsoAux bracket_size bracket_size

/-- The recursive doubling step used by `generate_seeding_order` for sizes not
in the table: for each value `p` of the half order emit `p` then
`bracket_size - 1 - p`. -/
def seedingRecStep (bracket_size : Nat) (half_order : List Nat) : List Nat :=
  half_order.flatMap (fun p => [p, bracket_size - 1 - p])

/-- Pure recursive form of the seeding order for bracket size `2 ^ k`. -/
def sRec : Nat → List Nat
  | 0 => [0]
  | k + 1 => (sRec k).flatMap (fun p => [p, 2 ^ (k + 1) - 1 - p])

/-- Embeds `RoundNamer.get_round_name`. -/
def get_round_name (participants_count : Nat) : String :=
  if participants_count = 2 then "FINAL"
  else if participants_count = 4 then "SEMIFINAIS"
  else if participants_count = 8 then "QUARTAS DE FINAL"
  else if participants_count = 16 then "OITAVAS DE FINAL"
  else if participants_count = 32 then "16-AVOS DE FINAL"
  else if participants_count = 64 then "32-AVOS DE FINAL"
  else if participants_count = 128 then "64-AVOS DE FINAL"
  else if participants_count = 256 then "128-AVOS DE FINAL"
  else "RODADA DE " ++ toString participants_count

/-- Computes `⌈log₂ n⌉` for `n ≥ 1` as the least `k ≥` the accumulator with
`n ≤ 2 ^ k`; structural in the fuel so that the kernel can evaluate it
(`Nat.clog` is well-founded recursive).  `ceilLog2_eq_clog` below proves it
equal to `Nat.clog 2`. -/
def ceilLog2Aux (n : Nat) : Nat → Nat → Nat
  | 0, k => k
  | fuel + 1, k => if n ≤ 2 ^ k then k else ceilLog2Aux n fuel (k + 1)

/-- `⌈log₂ n⌉` for `n ≥ 1` (and `0` for `n = 0`); see `ceilLog2Aux`. -/
def ceilLog2 (n : Nat) : Nat :=
  ceilLog2Aux n n 0

/-- Embeds `TournamentBracket._calculate_bracket_size`:
`bracket_size = 2 ** ceil(log2(N))`, `byes = bracket_size - N`
(exact arithmetic; the Python float `log2` agrees with it on every input
within double-precision range). -/
def _calculate_bracket_size (num_athletes : Nat) : Nat × Nat :=
  (2 ^ ceilLog2 num_athletes, 2 ^ ceilLog2 num_athletes - num_athletes)

/-- Embeds `TournamentBracket._reassign_seeds`: seed `i+1` to the athlete at
0-based input position `i`.  (The Python method mutates the athlete objects;
the embedding returns the list of updated athletes.) -/
def _reassign_seeds (athletes : List Athlete) : List Athlete :=
  athletes.enum.map (fun pair =>
    ⟨pair.2.name, pair.2.team, (pair.1 : Int) + 1, pair.2.age_category,
     pair.2.weight_category, pair.2.belt, pair.2.gender⟩)

/-- Insertion step of a stable sort on the `seed` key: inserts `a` after every
element whose seed is `≤ a.seed`. -/
def insertBySeed (a : Athlete) : List Athlete → List Athlete
  | [] => [a]
  | b :: bs => if b.seed ≤ a.seed then b :: insertBySeed a bs else a :: b :: bs

/-- Embeds `sorted(self.athletes, key=lambda x: x.seed)` (a stable sort on the
seed key) as a stable insertion sort. -/
def sortAthletesBySeed (athletes : List Athlete) : List Athlete :=
  athletes.foldl (fun acc a => insertBySeed a acc) []

/-- Embeds the placement loop of `_create_initial_bracket`:
`for i, athlete in enumerate(sorted_athletes): bracket[seeding_order[i]] = athlete`.
`j` is the running value of `i`. -/
def placeAux (order : List Nat) : List Athlete → Nat → List (Option Athlete) → List (Option Athlete)
  | [], _, bracket => bracket
  | a :: rest, j, bracket =>
      placeAux order rest (j + 1) (bracket.set (order.getD j 0) (some a))

/-- Embeds the bye-pair scan of `_optimize_bye_positions`: for each sibling
pair `(i, i+1)` with exactly one occupied slot, record the occupied slot. -/
def detectByePositions (bracket : List (Option Athlete)) : List Nat :=
  ((List.range (bracket.length / 2)).map (fun j => 2 * j)).foldl
    (fun acc i =>
      let p1 := bracket.getD i none
      let p2 := bracket.getD (i + 1) none
      if (p1.isSome && !p2.isSome) || (p2.isSome && !p1.isSome) then
        acc ++ [if p1.isSome then i else i + 1]
      else acc)
    []

/-- Embeds the first refill loop of `_optimize_bye_positions`
(`for i, position in enumerate(ordered_bye_positions): if i < len(...): bracket[position] = sorted_athletes[i]`):
the index advances at every iteration. -/
def fillByEnum (sorted_athletes : List Athlete) : List Nat → Nat → List (Option Athlete) → List (Option Athlete)
  | [], _, bracket => bracket
  | position :: rest, i, bracket =>
      if i < sorted_athletes.length then
        fillByEnum sorted_athletes rest (i + 1) (bracket.set position (some (sorted_athletes.getD i default)))
      else fillByEnum sorted_athletes rest (i + 1) bracket

/-- Embeds the second refill loop of `_optimize_bye_positions`
(`for position in free_positions: if athlete_index < len(...): ...; athlete_index += 1`):
the index advances only when an athlete is placed. -/
def fillSeq (sorted_athletes : List Athlete) : List Nat → Nat → List (Option Athlete) → List (Option Athlete)
  | [], _, bracket => bracket
  | position :: rest, athlete_index, bracket =>
      if athlete_index < sorted_athletes.length then
        fillSeq sorted_athletes rest (athlete_index + 1)
          (bracket.set position (some (sorted_athletes.getD athlete_index default)))
      else fillSeq sorted_athletes rest athlete_index bracket

/-- Embeds `TournamentBracket._optimize_bye_positions`.  (The Python method
rebuilds the list in place; the embedding returns the rebuilt list.) -/
def _optimize_bye_positions (bracket : List (Option Athlete)) (seeding_order : List Nat)
    (sorted_athletes : List Athlete) : List (Option Athlete) :=
  let bye_positions := detectByePositions bracket
  if bye_positions = [] then bracket
  else
    let bracket_size := bracket.length
    let cleared : List (Option Athlete) := List.replicate bracket_size none
    let ordered_bye_positions := seeding_order.filter (fun pos => pos ∈ bye_positions)
    let withByes := fillByEnum sorted_athletes ordered_bye_positions 0 cleared
    let free_positions := seeding_order.filter (fun pos => ¬ pos ∈ ordered_bye_positions)
    fillSeq sorted_athletes free_positions ordered_bye_positions.length withByes

/-- Embeds `TournamentBracket._create_initial_bracket`. -/
def _create_initial_bracket (athletes : List Athlete) : List (Option Athlete) :=
  let bracket_size := (_calculate_bracket_size athletes.length).1
  let seeding_order := generate_seeding_order bracket_size
  let sorted_athletes := sortAthletesBySeed athletes
  let initial_bracket : List (Option Athlete) := List.replicate bracket_size none
  let placed := placeAux seeding_order sorted_athletes 0 initial_bracket
  _optimize_bye_positions placed seeding_order sorted_athletes

/-- Embeds the loop of `TournamentBracket._create_first_round`; `idxs` is the
list of even slot indices `range(0, bracket_size, 2)` and `c` the running
match number. -/
def firstRoundAux (bracket : List (Option Athlete)) : List Nat → Nat → List Match
  | [], _ => []
  | i :: rest, c =>
      let m : Match := ⟨bracket.getD i none, bracket.getD (i + 1) none, none, 0⟩
      if m.has_both_athletes then
        ⟨m.athlete1, m.athlete2, m.winner, c⟩ :: firstRoundAux bracket rest (c + 1)
      else if m.athlete1.isSome || m.athlete2.isSome then
        m.process_bye :: firstRoundAux bracket rest c
      else m :: firstRoundAux bracket rest c

/-- Embeds `TournamentBracket._create_first_round`. -/
def _create_first_round (initial_bracket : List (Option Athlete)) : List Match :=
  firstRoundAux initial_bracket
    ((List.range (initial_bracket.length / 2)).map (fun j => 2 * j)) 1

/-- Embeds the inner loop of `TournamentBracket._create_subsequent_rounds`
that builds one next round out of `current_round`, pairing winners; returns
the new round together with the updated match number. -/
def nextRoundAux (current_round : List Match) : List Nat → Nat → List Match × Nat
  | [], c => ([], c)
  | i :: rest, c =>
      let winner1 := if i < current_round.length then (current_round.getD i default).winner else none
      let winner2 := if i + 1 < current_round.length then (current_round.getD (i + 1) default).winner else none
      if winner1.isSome && winner2.isSome then
        let result := nextRoundAux current_round rest (c + 1)
        (⟨winner1, winner2, none, c⟩ :: result.1, result.2)
      else
        let result := nextRoundAux current_round rest c
        (⟨winner1, winner2, none, 0⟩ :: result.1, result.2)

/-- One iteration of the `while` loop of `_create_subsequent_rounds`. -/
def buildNextRound (current_round : List Match) (c : Nat) : List Match × Nat :=
  nextRoundAux current_round
    ((List.range ((current_round.length + 1) / 2)).map (fun j => 2 * j)) c

/-- Embeds the `while len(current_round) > 1` loop of
`_create_subsequent_rounds`, accumulating rounds and round names.  The loop
halves the round length each iteration, so `fuel = current_round.length`
suffices to reach the exit condition. -/
def subRoundsAux : Nat → List Match → Nat → List (List Match) → List String →
    List (List Match) × List String
  | 0, _, _, rounds, round_names => (rounds, round_names)
  | fuel + 1, current_round, c, rounds, round_names =>
      if current_round.length > 1 then
        let step := buildNextRound current_round c
        subRoundsAux fuel step.1 step.2 (rounds ++ [step.1])
          (round_names ++ [get_round_name (step.1.length * 2)])
      else (rounds, round_names)

/-- Embeds `TournamentBracket._create_subsequent_rounds` (including its
initial `match_number` computation, which counts the two-athlete matches of
the rounds built so far). -/
def _create_subsequent_rounds (rounds : List (List Match)) (round_names : List String)
    (previous_round : List Match) : List (List Match) × List String :=
  let match_number :=
    (rounds.flatMap (fun round_matches => round_matches)).countP
      (fun m => m.has_both_athletes) + 1
  subRoundsAux previous_round.length previous_round match_number rounds round_names

/-- Embeds the bracket state produced by the `TournamentBracket` constructor:
the (possibly mutated) athlete list, the category, the rounds and the round
names. -/
structure TournamentBracket where
  athletes : List Athlete
  category : String
  rounds : List (List Match)
  round_names : List String
  deriving DecidableEq

/-- Embeds `TournamentBracket._build_bracket`. -/
def _build_bracket (athletes0 : List Athlete) (category : String) : TournamentBracket :=
  let athletes := _reassign_seeds athletes0
  let initial_bracket := _create_initial_bracket athletes
  let first_round := _create_first_round initial_bracket
  let bracket_size := (_calculate_bracket_size athletes.length).1
  let rounds := [first_round]
  let round_names := [get_round_name bracket_size]
  let result := _create_subsequent_rounds rounds round_names first_round
  ⟨athletes, category, result.1, result.2⟩

/-- Embeds `TournamentBracket.__init__`: builds the bracket when more than one
athlete is given, otherwise leaves rounds and names empty. -/
def construct (athletes : List Athlete) (category : String) : TournamentBracket :=
  if athletes.length > 1 then _build_bracket athletes category
  else ⟨athletes, category, [], []⟩

/-- The sibling slot of slot `v`: the other slot of the match pair
`(2j, 2j+1)` containing `v`. -/
def partner (v : Nat) : Nat :=
  if v % 2 = 0 then v + 1 else v - 1

/-- The expected list of round sizes for a bracket of size `2 ^ m`:
`[2 ^ (m-1), …, 2, 1]`. -/
def halvingLengths : Nat → List Nat
  | 0 => []
  | m + 1 => 2 ^ m :: halvingLengths m

/-- The sequence numbers of the numbered matches of a match list, in order. -/
def numbersOf (ms : List Match) : List Nat :=
  (ms.filter (fun m => m.number != 0)).map (fun m => m.number)

/-- The count of two-athlete matches of a match list. -/
def countHB (ms : List Match) : Nat :=
  ms.countP (fun m => m.has_both_athletes)

/-- Concrete test athlete (nonzero input seed, so that seed reassignment is
observable). -/
def athA : Athlete := ⟨"ALICE", "T1", 5, "", "", "", ""⟩

/-- Concrete test athlete. -/
def athB : Athlete := ⟨"BOB", "T1", 0, "", "", "", ""⟩

/-- Concrete test athlete. -/
def athC : Athlete := ⟨"CARA", "T2", 0, "", "", "", ""⟩

/-- Concrete three-athlete input (bracket size 4, one bye). -/
def trio : List Athlete := [athA, athB, athC]

/-- The initial slot placement computed by `_build_bracket` for a given input
(after seed reassignment). -/
def initialBracketOf (athletes : List Athlete) : List (Option Athlete) :=
  _create_initial_bracket (_reassign_seeds athletes)

/-- The first round computed by `_build_bracket` for a given input. -/
def firstRoundOf (athletes : List Athlete) : List Match :=
  _create_first_round (initialBracketOf athletes)

theorem ceilLog2Aux_le_pow (n : Nat) :
    ∀ fuel k, n ≤ 2 ^ (k + fuel) → n ≤ 2 ^ ceilLog2Aux n fuel k := by
  intro fuel
  induction fuel with
  | zero => intro k h; simpa [ceilLog2Aux] using h
  | succ fuel ih =>
      intro k h
      by_cases hk : n ≤ 2 ^ k
      · simp [ceilLog2Aux, hk]
      · simp only [ceilLog2Aux, if_neg hk]
        exact ih (k + 1) (by rw [show k + 1 + fuel = k + (fuel + 1) by omega]; exact h)

theorem ceilLog2Aux_min (n : Nat) :
    ∀ fuel k m, k ≤ m → n ≤ 2 ^ m → ceilLog2Aux n fuel k ≤ m := by
  intro fuel
  induction fuel with
  | zero => intro k m hk _; simpa [ceilLog2Aux] using hk
  | succ fuel ih =>
      intro k m hk hm
      by_cases hkle : n ≤ 2 ^ k
      · simpa [ceilLog2Aux, hkle] using hk
      · simp only [ceilLog2Aux, if_neg hkle]
        refine ih (k + 1) m ?_ hm
        rcases Nat.eq_or_lt_of_le hk with h | h
        · exact absurd (h ▸ hm) hkle
        · omega

theorem le_pow_ceilLog2 (n : Nat) : n ≤ 2 ^ ceilLog2 n :=
  ceilLog2Aux_le_pow n n 0 (by simpa using (Nat.lt_two_pow n).le)

theorem ceilLog2_min (n m : Nat) (h : n ≤ 2 ^ m) : ceilLog2 n ≤ m :=
  ceilLog2Aux_min n n 0 m (Nat.zero_le m) h

theorem ceilLog2_eq_clog (n : Nat) : ceilLog2 n = Nat.clog 2 n :=
  le_antisymm
    (ceilLog2_min n (Nat.clog 2 n) (Nat.le_pow_clog one_lt_two n))
    ((Nat.le_pow_iff_clog_le one_lt_two).mp (le_pow_ceilLog2 n))

theorem ceilLog2_pos (n : Nat) (h : 2 ≤ n) : 1 ≤ ceilLog2 n := by
  by_contra hc
  have h0 : ceilLog2 n = 0 := by omega
  have := le_pow_ceilLog2 n
  rw [h0] at this
  simp at this
  omega

theorem pow_pred_ceilLog2_lt (n : Nat) (h : 2 ≤ n) : 2 ^ (ceilLog2 n - 1) < n := by
  by_contra hc
  push_neg at hc
  have := ceilLog2_min n (ceilLog2 n - 1) hc
  have := ceilLog2_pos n h
  omega

/-- C5: for every `N ≥ 1`, `_calculate_bracket_size N = (bracket_size, byes)`
where `bracket_size` is the smallest power of two `≥ N`, `byes + N =
bracket_size` and `byes < bracket_size / 2` (as a real quotient:
`2 * byes < bracket_size`); in particular `N = 1` yields `(1, 0)`. -/
theorem c5_bracket_size :
    (∀ N : Nat, 1 ≤ N →
      (∃ k, (_calculate_bracket_size N).1 = 2 ^ k) ∧
      N ≤ (_calculate_bracket_size N).1 ∧
      (∀ m : Nat, N ≤ 2 ^ m → (_calculate_bracket_size N).1 ≤ 2 ^ m) ∧
      (_calculate_bracket_size N).2 + N = (_calculate_bracket_size N).1 ∧
      2 * (_calculate_bracket_size N).2 < (_calculate_bracket_size N).1) ∧
    _calculate_bracket_size 1 = (1, 0) := by
  constructor
  · intro N hN
    have hle := le_pow_ceilLog2 N
    refine ⟨⟨ceilLog2 N, rfl⟩, hle, ?_, ?_, ?_⟩
    · intro m hm
      exact Nat.pow_le_pow_right (by norm_num) (ceilLog2_min N m hm)
    · simp only [_calculate_bracket_size]
      omega
    · rcases Nat.lt_or_ge N 2 with h2 | h2
      · have hN1 : N = 1 := by omega
        subst hN1
        have h0 : ceilLog2 1 = 0 := Nat.le_zero.mp (ceilLog2_min 1 0 (by norm_num))
        simp [_calculate_bracket_size, h0]
      · have hp := pow_pred_ceilLog2_lt N h2
        have hpos := ceilLog2_pos N h2
        have hsplit : 2 ^ ceilLog2 N = 2 * 2 ^ (ceilLog2 N - 1) := by
          rw [← pow_succ']
          congr 1
          omega
        simp only [_calculate_bracket_size]
        omega
  · rfl

theorem c5_witness :
    1 ≤ 5 ∧ 5 ≤ (_calculate_bracket_size 5).1 ∧
    (_calculate_bracket_size 5).2 + 5 = (_calculate_bracket_size 5).1 ∧
    2 * (_calculate_bracket_size 5).2 < (_calculate_bracket_size 5).1 ∧
    (_calculate_bracket_size 5).1 ≤ 2 ^ 3 :=
  ⟨by decide, (c5_bracket_size.1 5 (by decide)).2.1,
   (c5_bracket_size.1 5 (by decide)).2.2.2.1,
   (c5_bracket_size.1 5 (by decide)).2.2.2.2,
   (c5_bracket_size.1 5 (by decide)).2.2.1 3 (by decide)⟩

/-- C4: every hard-coded seeding table for sizes 1,2,4,…,128 is a permutation
of `[0, n)` starting at `0`, and for each even such size the table equals the
recursive doubling step applied to the table for half the size. -/
theorem c4_seeding_tables_match_recursion :
    ((generate_seeding_order 1).Perm (List.range 1) ∧ (generate_seeding_order 1).getD 0 0 = 0) ∧
    ((generate_seeding_order 2).Perm (List.range 2) ∧ (generate_seeding_order 2).getD 0 0 = 0) ∧
    ((generate_seeding_order 4).Perm (List.range 4) ∧ (generate_seeding_order 4).getD 0 0 = 0) ∧
    ((generate_seeding_order 8).Perm (List.range 8) ∧ (generate_seeding_order 8).getD 0 0 = 0) ∧
    ((generate_seeding_order 16).Perm (List.range 16) ∧ (generate_seeding_order 16).getD 0 0 = 0) ∧
    ((generate_seeding_order 32).Perm (List.range 32) ∧ (generate_seeding_order 32).getD 0 0 = 0) ∧
    ((generate_seeding_order 64).Perm (List.range 64) ∧ (generate_seeding_order 64).getD 0 0 = 0) ∧
    ((generate_seeding_order 128).Perm (List.range 128) ∧ (generate_seeding_order 128).getD 0 0 = 0) ∧
    (generate_seeding_order 2 = seedingRecStep 2 (generate_seeding_order 1)) ∧
    (generate_seeding_order 4 = seedingRecStep 4 (generate_seeding_order 2)) ∧
    (generate_seeding_order 8 = seedingRecStep 8 (generate_seeding_order 4)) ∧
    (generate_seeding_order 16 = seedingRecStep 16 (generate_seeding_order 8)) ∧
    (generate_seeding_order 32 = seedingRecStep 32 (generate_seeding_order 16)) ∧
    (generate_seeding_order 64 = seedingRecStep 64 (generate_seeding_order 32)) ∧
    (generate_seeding_order 128 = seedingRecStep 128 (generate_seeding_order 64)) := by
  decide

/-- C9: bracket construction is deterministic — identical inputs give an
identical bracket value (same rounds, slot contents, winners, numbers and
round names). -/
theorem c9_determinism (athletes1 athletes2 : List Athlete) (category1 category2 : String)
    (hl : athletes1 = athletes2) (hc : category1 = category2) :
    construct athletes1 category1 = construct athletes2 category2 := by
  subst hl
  subst hc
  rfl

theorem c9_witness : construct trio "CAT" = construct trio "CAT" :=
  c9_determinism trio trio "CAT" "CAT" rfl rfl

theorem construct_small (athletes : List Athlete) (category : String)
    (h : athletes.length < 2) :
    (construct athletes category).rounds = [] ∧ (construct athletes category).round_names = [] := by
  have h' : ¬ (athletes.length > 1) := by omega
  simp [construct, h']

/-- C10: for fewer than two athletes (including the empty list) the
constructor is total and produces empty `rounds` and `round_names`. -/
theorem c10_small_input_empty_bracket (athletes : List Athlete) (category : String)
    (h : athletes.length < 2) :
    (construct athletes category).rounds = [] ∧ (construct athletes category).round_names = [] :=
  construct_small athletes category h

theorem c10_witness :
    (([] : List Athlete).length < 2 ∧ (construct [] "X").rounds = [] ∧
      (construct [] "X").round_names = []) ∧
    ([athA].length < 2 ∧ (construct [athA] "X").rounds = []) :=
  ⟨⟨by decide, (c10_small_input_empty_bracket [] "X" (by decide)).1,
    (c10_small_input_empty_bracket [] "X" (by decide)).2⟩,
   by decide, (c10_small_input_empty_bracket [athA] "X" (by decide)).1⟩

theorem reassign_length (athletes : List Athlete) :
    (_reassign_seeds athletes).length = athletes.length := by
  simp [_reassign_seeds]

theorem reassign_getD (athletes : List Athlete) (i : Nat) (hi : i < athletes.length) :
    (_reassign_seeds athletes).getD i default =
      ⟨(athletes.getD i default).name, (athletes.getD i default).team, (i : Int) + 1,
       (athletes.getD i default).age_category, (athletes.getD i default).weight_category,
       (athletes.getD i default).belt, (athletes.getD i default).gender⟩ := by
  have hlen : i < (_reassign_seeds athletes).length := by rwa [reassign_length]
  rw [List.getD_eq_getElem _ _ hlen, List.getD_eq_getElem _ _ hi]
  simp [_reassign_seeds]

/-- C8 fails as stated: construction mutates the seed fields of the input
athletes.  Concretely, the first athlete of `trio` enters with seed `5` and
holds seed `1` after construction. -/
theorem c8_counterexample : ¬ ((construct trio "X").athletes = trio) := by
  intro h
  have h1 : ((construct trio "X").athletes.getD 0 default).seed = 1 := rfl
  rw [h] at h1
  exact absurd h1 (by decide)

/-- C8 amended: construction leaves every field of every input athlete except
`seed` unchanged; for two or more athletes the seeds are reassigned to
`1..N` in input order, and for fewer the athletes are untouched entirely. -/
theorem c8_construction_mutates_only_seeds (athletes : List Athlete) (category : String) :
    (construct athletes category).athletes.length = athletes.length ∧
    (athletes.length ≤ 1 → (construct athletes category).athletes = athletes) ∧
    (1 < athletes.length → ∀ i, i < athletes.length →
      ((construct athletes category).athletes.getD i default).name = (athletes.getD i default).name ∧
      ((construct athletes category).athletes.getD i default).team = (athletes.getD i default).team ∧
      ((construct athletes category).athletes.getD i default).age_category
        = (athletes.getD i default).age_category ∧
      ((construct athletes category).athletes.getD i default).weight_category
        = (athletes.getD i default).weight_category ∧
      ((construct athletes category).athletes.getD i default).belt = (athletes.getD i default).belt ∧
      ((construct athletes category).athletes.getD i default).gender = (athletes.getD i default).gender ∧
      ((construct athletes category).athletes.getD i default).seed = (i : Int) + 1) := by
  by_cases hlen : athletes.length > 1
  · have hath : (construct athletes category).athletes = _reassign_seeds athletes := by
      simp [construct, hlen, _build_bracket]
    refine ⟨by rw [hath, reassign_length], by omega, ?_⟩
    intro _ i hi
    rw [hath, reassign_getD athletes i hi]
    exact ⟨rfl, rfl, rfl, rfl, rfl, rfl, rfl⟩
  · have hath : (construct athletes category).athletes = athletes := by
      simp [construct, hlen]
    exact ⟨by rw [hath], fun _ => hath, by omega⟩

theorem c8_witness :
    1 < trio.length ∧ 0 < trio.length ∧
    ((construct trio "X").athletes.getD 0 default).name = (trio.getD 0 default).name ∧
    ((construct trio "X").athletes.getD 0 default).seed = (0 : Int) + 1 :=
  ⟨by decide, by decide,
   ((c8_construction_mutates_only_seeds trio "X").2.2 (by decide) 0 (by decide)).1,
   ((c8_construction_mutates_only_seeds trio "X").2.2 (by decide) 0 (by decide)).2.2.2.2.2.2⟩

/-- C7 fails as stated: in rounds after the first, a match with exactly one
populated slot does not have its winner set.  Concretely, for the
three-athlete input the final (round 2) is a bye match whose winner is `none`
rather than its populated competitor. -/
theorem c7_counterexample :
    ¬ ((((construct trio "X").rounds.getD 1 []).getD 0 default).is_bye = true →
       ((((construct trio "X").rounds.getD 1 []).getD 0 default).winner =
         (if (((construct trio "X").rounds.getD 1 []).getD 0 default).athlete1.isSome
          then (((construct trio "X").rounds.getD 1 []).getD 0 default).athlete1
          else (((construct trio "X").rounds.getD 1 []).getD 0 default).athlete2) ∧
        (((construct trio "X").rounds.getD 1 []).getD 0 default).number = 0)) := by
  intro h
  exact absurd (h (by decide)).1 (by decide)

theorem getD_append_lt {α : Type} (l₁ l₂ : List α) (d : α) (i : Nat) (h : i < l₁.length) :
    (l₁ ++ l₂).getD i d = l₁.getD i d := by
  rw [List.getD_eq_getElem _ _ (by rw [List.length_append]; omega), List.getD_eq_getElem _ _ h]
  exact List.getElem_append_left h

theorem roundLength_getD (rs : List (List Match)) (i : Nat) (h : i < rs.length) :
    (rs.getD i []).length = (rs.map List.length).getD i 0 := by
  rw [List.getD_eq_getElem _ _ h, List.getD_eq_getElem _ _ (by simpa using h)]
  simp

theorem placeAux_length (order : List Nat) :
    ∀ (l : List Athlete) (j : Nat) (bracket : List (Option Athlete)),
      (placeAux order l j bracket).length = bracket.length := by
  intro l
  induction l with
  | nil => intro j bracket; rfl
  | cons a rest ih =>
      intro j bracket
      rw [placeAux, ih, List.length_set]

theorem fillByEnum_length (sorted_athletes : List Athlete) :
    ∀ (positions : List Nat) (i : Nat) (bracket : List (Option Athlete)),
      (fillByEnum sorted_athletes positions i bracket).length = bracket.length := by
  intro positions
  induction positions with
  | nil => intro i bracket; rfl
  | cons p rest ih =>
      intro i bracket
      rw [fillByEnum]
      split
      · rw [ih, List.length_set]
      · rw [ih]

theorem fillSeq_length (sorted_athletes : List Athlete) :
    ∀ (positions : List Nat) (i : Nat) (bracket : List (Option Athlete)),
      (fillSeq sorted_athletes positions i bracket).length = bracket.length := by
  intro positions
  induction positions with
  | nil => intro i bracket; rfl
  | cons p rest ih =>
      intro i bracket
      rw [fillSeq]
      split
      · rw [ih, List.length_set]
      · rw [ih]

theorem optimize_length (bracket : List (Option Athlete)) (seeding_order : List Nat)
    (sorted_athletes : List Athlete) :
    (_optimize_bye_positions bracket seeding_order sorted_athletes).length = bracket.length := by
  rw [_optimize_bye_positions]
  split
  · rfl
  · rw [fillSeq_length, fillByEnum_length, List.length_replicate]

theorem create_initial_bracket_length (athletes : List Athlete) :
    (_create_initial_bracket athletes).length = (_calculate_bracket_size athletes.length).1 := by
  rw [_create_initial_bracket, optimize_length, placeAux_length, List.length_replicate]

theorem firstRoundAux_length (bracket : List (Option Athlete)) :
    ∀ (idxs : List Nat) (c : Nat), (firstRoundAux bracket idxs c).length = idxs.length := by
  intro idxs
  induction idxs with
  | nil => intro c; rfl
  | cons i rest ih =>
      intro c
      rw [firstRoundAux]
      split
      · simp [ih]
      · split
        · simp [ih]
        · simp [ih]

theorem first_round_length (bracket : List (Option Athlete)) :
    (_create_first_round bracket).length = bracket.length / 2 := by
  rw [_create_first_round, firstRoundAux_length, List.length_map, List.length_range]

theorem nextRoundAux_length (current_round : List Match) :
    ∀ (idxs : List Nat) (c : Nat), (nextRoundAux current_round idxs c).1.length = idxs.length := by
  intro idxs
  induction idxs with
  | nil => intro c; rfl
  | cons i rest ih =>
      intro c
      rw [nextRoundAux]
      repeat' split
      all_goals simp [ih]

theorem buildNextRound_length (current_round : List Match) (c : Nat) :
    (buildNextRound current_round c).1.length = (current_round.length + 1) / 2 := by
  rw [buildNextRound, nextRoundAux_length, List.length_map, List.length_range]

theorem halvingLengths_length : ∀ m, (halvingLengths m).length = m := by
  intro m
  induction m with
  | zero => rfl
  | succ m ih => simp [halvingLengths, ih]

theorem halvingLengths_getD : ∀ m i, i < m → (halvingLengths m).getD i 0 = 2 ^ (m - 1 - i) := by
  intro m
  induction m with
  | zero => omega
  | succ m ih =>
      intro i hi
      cases i with
      | zero => simp [halvingLengths]
      | succ i =>
          have h := ih i (by omega)
          simp only [halvingLengths, List.getD_cons_succ]
          rw [h]
          congr 1
          omega

theorem subRoundsAux_map_length :
    ∀ (m fuel : Nat) (current_round : List Match) (c : Nat) (rounds : List (List Match))
      (names : List String),
      current_round.length = 2 ^ m → 2 ^ m ≤ fuel →
      ((subRoundsAux fuel current_round c rounds names).1).map List.length
        = rounds.map List.length ++ halvingLengths m := by
  intro m
  induction m with
  | zero =>
      intro fuel current_round c rounds names hlen hfuel
      cases fuel with
      | zero => simp [subRoundsAux, halvingLengths]
      | succ f =>
          have hng : ¬ (current_round.length > 1) := by rw [hlen]; norm_num
          simp [subRoundsAux, hng, halvingLengths]
  | succ m ih =>
      intro fuel current_round c rounds names hlen hfuel
      have hpos : 0 < 2 ^ m := Nat.pos_pow_of_pos m (by norm_num)
      have h2 : 2 ^ (m + 1) = 2 * 2 ^ m := by rw [pow_succ]; ring
      cases fuel with
      | zero => omega
      | succ f =>
          have hgt : current_round.length > 1 := by rw [hlen]; omega
          rw [subRoundsAux, if_pos hgt]
          have hnext : (buildNextRound current_round c).1.length = 2 ^ m := by
            rw [buildNextRound_length, hlen, h2]
            omega
          rw [ih f _ _ _ _ hnext (by omega)]
          simp [halvingLengths, hnext]

theorem construct_rounds_eq (athletes : List Athlete) (category : String)
    (h : 1 < athletes.length) :
    (construct athletes category).rounds
      = (subRoundsAux (firstRoundOf athletes).length (firstRoundOf athletes)
          (countHB (firstRoundOf athletes) + 1) [firstRoundOf athletes]
          [get_round_name (_calculate_bracket_size (_reassign_seeds athletes).length).1]).1 := by
  simp [construct, h, _build_bracket, _create_subsequent_rounds, firstRoundOf,
    initialBracketOf, countHB]

theorem firstRoundOf_length (athletes : List Athlete) :
    (firstRoundOf athletes).length = (_calculate_bracket_size athletes.length).1 / 2 := by
  rw [firstRoundOf, initialBracketOf, first_round_length, create_initial_bracket_length,
    reassign_length]

/-- The round-size list of a constructed bracket for `N ≥ 2` athletes is
`[2^(k-1), …, 2, 1]` where `2^k` is the bracket size. -/
theorem construct_rounds_map_length (athletes : List Athlete) (category : String)
    (h : 1 < athletes.length) :
    ((construct athletes category).rounds).map List.length
      = halvingLengths (ceilLog2 athletes.length) := by
  have hk : 1 ≤ ceilLog2 athletes.length := ceilLog2_pos athletes.length h
  have hb : (_calculate_bracket_size athletes.length).1 = 2 ^ ceilLog2 athletes.length := rfl
  have hsplit : (2 : Nat) ^ ceilLog2 athletes.length = 2 * 2 ^ (ceilLog2 athletes.length - 1) := by
    rw [← pow_succ']
    congr 1
    omega
  have hfr : (firstRoundOf athletes).length = 2 ^ (ceilLog2 athletes.length - 1) := by
    rw [firstRoundOf_length, hb, hsplit]
    omega
  rw [construct_rounds_eq athletes category h,
    subRoundsAux_map_length (ceilLog2 athletes.length - 1) _ _ _ _ _ hfr (le_of_eq hfr.symm)]
  rw [show halvingLengths (ceilLog2 athletes.length)
        = 2 ^ (ceilLog2 athletes.length - 1) :: halvingLengths (ceilLog2 athletes.length - 1) by
      rw [show ceilLog2 athletes.length = (ceilLog2 athletes.length - 1) + 1 by omega]
      rfl]
  simp [hfr]

/-- C6: one athlete gives zero rounds; for `N ≥ 2` the first round has
`bracket_size / 2` matches, every later round has exactly half as many
matches as its predecessor, and the last round has exactly one match. -/
theorem c6_round_sizes (athletes : List Athlete) (category : String) :
    (athletes.length = 1 → (construct athletes category).rounds = []) ∧
    (2 ≤ athletes.length →
      ((construct athletes category).rounds.getD 0 []).length
          = (_calculate_bracket_size athletes.length).1 / 2 ∧
      (∀ i, i + 1 < (construct athletes category).rounds.length →
        2 * ((construct athletes category).rounds.getD (i + 1) []).length
          = ((construct athletes category).rounds.getD i []).length) ∧
      ((construct athletes category).rounds.getD
          ((construct athletes category).rounds.length - 1) []).length = 1) := by
  constructor
  · intro h1
    exact (construct_small athletes category (by omega)).1
  · intro h2
    have hml := construct_rounds_map_length athletes category (by omega)
    have hk : 1 ≤ ceilLog2 athletes.length := ceilLog2_pos athletes.length (by omega)
    have hrl : (construct athletes category).rounds.length = ceilLog2 athletes.length := by
      have := congrArg List.length hml
      simpa [halvingLengths_length] using this
    have hsplit : (2 : Nat) ^ ceilLog2 athletes.length
        = 2 * 2 ^ (ceilLog2 athletes.length - 1) := by
      rw [← pow_succ']
      congr 1
      omega
    refine ⟨?_, ?_, ?_⟩
    · have h0 : ((construct athletes category).rounds.getD 0 []).length
          = 2 ^ (ceilLog2 athletes.length - 1) := by
        rw [roundLength_getD _ 0 (by omega), hml, halvingLengths_getD _ 0 (by omega),
          Nat.sub_zero]
      have hb : (_calculate_bracket_size athletes.length).1 = 2 ^ ceilLog2 athletes.length := rfl
      rw [h0, hb, hsplit]
      omega
    · intro i hi
      rw [hrl] at hi
      have ha : ((construct athletes category).rounds.getD (i + 1) []).length
          = 2 ^ (ceilLog2 athletes.length - 1 - (i + 1)) := by
        rw [roundLength_getD _ (i + 1) (by omega), hml,
          halvingLengths_getD _ (i + 1) (by omega)]
      have hb2 : ((construct athletes category).rounds.getD i []).length
          = 2 ^ (ceilLog2 athletes.length - 1 - i) := by
        rw [roundLength_getD _ i (by omega), hml, halvingLengths_getD _ i (by omega)]
      rw [ha, hb2,
        show ceilLog2 athletes.length - 1 - i = (ceilLog2 athletes.length - 1 - (i + 1)) + 1 by
          omega,
        pow_succ]
      ring
    · rw [roundLength_getD _ _ (by omega), hml, hrl,
        halvingLengths_getD _ (ceilLog2 athletes.length - 1) (by omega)]
      simp

theorem c6_witness :
    (trio.length = 1 → (construct trio "X").rounds = []) ∧
    2 ≤ trio.length ∧
    ((construct trio "X").rounds.getD 0 []).length = (_calculate_bracket_size trio.length).1 / 2 ∧
    (0 + 1 < (construct trio "X").rounds.length →
      2 * ((construct trio "X").rounds.getD (0 + 1) []).length
        = ((construct trio "X").rounds.getD 0 []).length) ∧
    ((construct trio "X").rounds.getD ((construct trio "X").rounds.length - 1) []).length = 1 :=
  ⟨(c6_round_sizes trio "X").1, by decide,
   ((c6_round_sizes trio "X").2 (by decide)).1,
   fun h => ((c6_round_sizes trio "X").2 (by decide)).2.1 0 h,
   ((c6_round_sizes trio "X").2 (by decide)).2.2⟩

theorem getD_append_singleton {α : Type} (l : List α) (x d : α) :
    (l ++ [x]).getD l.length d = x := by
  rw [List.getD_eq_getElem _ _ (by simp)]
  rw [List.getElem_append_right (Nat.le_refl l.length)]
  simp

theorem process_bye_athlete1 (m : Match) : m.process_bye.athlete1 = m.athlete1 := by
  rw [Match.process_bye]
  repeat' split
  all_goals rfl

theorem process_bye_athlete2 (m : Match) : m.process_bye.athlete2 = m.athlete2 := by
  rw [Match.process_bye]
  repeat' split
  all_goals rfl

theorem process_bye_number (m : Match) : m.process_bye.number = m.number := by
  rw [Match.process_bye]
  repeat' split
  all_goals rfl

theorem is_bye_not_hb (m : Match) (h : m.is_bye = true) : m.has_both_athletes = false := by
  rw [Match.is_bye] at h
  rw [Match.has_both_athletes]
  cases h1 : m.athlete1.isSome <;> cases h2 : m.athlete2.isSome <;> simp_all

theorem numbersOf_append (l₁ l₂ : List Match) :
    numbersOf (l₁ ++ l₂) = numbersOf l₁ ++ numbersOf l₂ := by
  simp [numbersOf, List.filter_append]

theorem countHB_append (l₁ l₂ : List Match) :
    countHB (l₁ ++ l₂) = countHB l₁ + countHB l₂ := by
  simp [countHB, List.countP_append]

theorem firstRoundAux_hb_number (bracket : List (Option Athlete)) :
    ∀ (idxs : List Nat) (c : Nat), 1 ≤ c →
      ∀ m ∈ firstRoundAux bracket idxs c, m.has_both_athletes = (m.number != 0) := by
  intro idxs
  induction idxs with
  | nil => intro c _ m hm; simp [firstRoundAux] at hm
  | cons i rest ih =>
      intro c hc m hm
      rw [firstRoundAux] at hm
      by_cases h1 : (⟨bracket.getD i none, bracket.getD (i + 1) none, none, 0⟩ : Match).has_both_athletes
      · rw [if_pos h1] at hm
        rcases List.mem_cons.mp hm with rfl | hm'
        · rw [Match.has_both_athletes] at h1 ⊢
          simp only at h1 ⊢
          rw [h1]
          have : c ≠ 0 := by omega
          simp [this]
        · exact ih (c + 1) (by omega) m hm'
      · rw [if_neg h1] at hm
        by_cases h2 : ((⟨bracket.getD i none, bracket.getD (i + 1) none, none, 0⟩ : Match).athlete1.isSome
            || (⟨bracket.getD i none, bracket.getD (i + 1) none, none, 0⟩ : Match).athlete2.isSome)
        · rw [if_pos h2] at hm
          rcases List.mem_cons.mp hm with rfl | hm'
          · rw [Match.has_both_athletes] at h1 ⊢
            rw [process_bye_athlete1, process_bye_athlete2, process_bye_number]
            simp only at h1 ⊢
            simp only [Bool.and_eq_true, not_and] at h1
            cases ha : (bracket.getD i none).isSome <;>
              cases hb : (bracket.getD (i + 1) none).isSome <;> simp_all
          · exact ih c hc m hm'
        · rw [if_neg h2] at hm
          rcases List.mem_cons.mp hm with rfl | hm'
          · rw [Match.has_both_athletes] at h1 ⊢
            simp only at h1 ⊢
            cases ha : (bracket.getD i none).isSome <;>
              cases hb : (bracket.getD (i + 1) none).isSome <;> simp_all
          · exact ih c hc m hm'

theorem firstRoundAux_bye_winner (bracket : List (Option Athlete)) :
    ∀ (idxs : List Nat) (c : Nat),
      ∀ m ∈ firstRoundAux bracket idxs c, m.is_bye = true →
        m.winner = (if m.athlete1.isSome then m.athlete1 else m.athlete2) := by
  intro idxs
  induction idxs with
  | nil => intro c m hm; simp [firstRoundAux] at hm
  | cons i rest ih =>
      intro c m hm
      rw [firstRoundAux] at hm
      by_cases h1 : (⟨bracket.getD i none, bracket.getD (i + 1) none, none, 0⟩ : Match).has_both_athletes
      · rw [if_pos h1] at hm
        rcases List.mem_cons.mp hm with rfl | hm'
        · intro hbye
          rw [Match.has_both_athletes] at h1
          rw [Match.is_bye] at hbye
          simp only at h1 hbye
          simp only [Bool.and_eq_true] at h1
          rw [h1.1, h1.2] at hbye
          simp at hbye
        · exact ih (c + 1) m hm'
      · rw [if_neg h1] at hm
        by_cases h2 : ((⟨bracket.getD i none, bracket.getD (i + 1) none, none, 0⟩ : Match).athlete1.isSome
            || (⟨bracket.getD i none, bracket.getD (i + 1) none, none, 0⟩ : Match).athlete2.isSome)
        · rw [if_pos h2] at hm
          rcases List.mem_cons.mp hm with rfl | hm'
          · intro _
            rw [process_bye_athlete1, process_bye_athlete2, Match.process_bye]
            rw [Match.has_both_athletes] at h1
            simp only at h1 h2 ⊢
            simp only [Bool.and_eq_true, not_and] at h1
            cases ha : (bracket.getD i none).isSome <;>
              cases hb : (bracket.getD (i + 1) none).isSome <;> simp_all
          · exact ih c m hm'
        · rw [if_neg h2] at hm
          rcases List.mem_cons.mp hm with rfl | hm'
          · intro hbye
            rw [Match.is_bye] at hbye
            simp only at h2 hbye
            simp only [Bool.or_eq_true, not_or] at h2
            cases ha : (bracket.getD i none).isSome <;>
              cases hb : (bracket.getD (i + 1) none).isSome <;> simp_all
          · exact ih c m hm'

theorem firstRoundAux_numbersOf (bracket : List (Option Athlete)) :
    ∀ (idxs : List Nat) (c : Nat), 1 ≤ c →
      numbersOf (firstRoundAux bracket idxs c)
        = List.range' c (countHB (firstRoundAux bracket idxs c)) := by
  intro idxs
  induction idxs with
  | nil => intro c _; simp [firstRoundAux, numbersOf, countHB]
  | cons i rest ih =>
      intro c hc
      rw [firstRoundAux]
      by_cases h1 : (⟨bracket.getD i none, bracket.getD (i + 1) none, none, 0⟩ : Match).has_both_athletes
      · rw [if_pos h1]
        rw [numbersOf, countHB, List.filter_cons, List.countP_cons]
        have hcne : ((⟨(⟨bracket.getD i none, bracket.getD (i + 1) none, none, 0⟩ : Match).athlete1,
            (⟨bracket.getD i none, bracket.getD (i + 1) none, none, 0⟩ : Match).athlete2,
            (⟨bracket.getD i none, bracket.getD (i + 1) none, none, 0⟩ : Match).winner,
            c⟩ : Match).number != 0) = true := by
          have hc0 : c ≠ 0 := by omega
          simpa using hc0
        rw [if_pos hcne]
        have hhb : (⟨(⟨bracket.getD i none, bracket.getD (i + 1) none, none, 0⟩ : Match).athlete1,
            (⟨bracket.getD i none, bracket.getD (i + 1) none, none, 0⟩ : Match).athlete2,
            (⟨bracket.getD i none, bracket.getD (i + 1) none, none, 0⟩ : Match).winner,
            c⟩ : Match).has_both_athletes = true := h1
        rw [if_pos hhb, List.map_cons]
        have hih := ih (c + 1) (by omega)
        rw [numbersOf, countHB] at hih
        rw [hih, List.range'_succ]
      · rw [if_neg h1]
        by_cases h2 : ((⟨bracket.getD i none, bracket.getD (i + 1) none, none, 0⟩ : Match).athlete1.isSome
            || (⟨bracket.getD i none, bracket.getD (i + 1) none, none, 0⟩ : Match).athlete2.isSome)
        · rw [if_pos h2]
          have hpn : (⟨bracket.getD i none, bracket.getD (i + 1) none, none,
              0⟩ : Match).process_bye.number = 0 := by
            rw [process_bye_number]
          have hpb : (⟨bracket.getD i none, bracket.getD (i + 1) none, none,
              0⟩ : Match).process_bye.has_both_athletes = false := by
            rw [Match.has_both_athletes, process_bye_athlete1, process_bye_athlete2]
            rw [Match.has_both_athletes] at h1
            simpa using h1
          rw [numbersOf, countHB, List.filter_cons, List.countP_cons]
          rw [if_neg (by rw [hpn]; simp), if_neg (by rw [hpb]; simp), Nat.add_zero]
          have hih := ih c hc
          rw [numbersOf, countHB] at hih
          rw [hih]
        · rw [if_neg h2]
          have hpb : (⟨bracket.getD i none, bracket.getD (i + 1) none, none,
              0⟩ : Match).has_both_athletes = false := by
            rw [Match.has_both_athletes] at h1 ⊢
            simpa using h1
          rw [numbersOf, countHB, List.filter_cons, List.countP_cons]
          rw [if_neg (by simp), if_neg (by rw [hpb]; simp), Nat.add_zero]
          have hih := ih c hc
          rw [numbersOf, countHB] at hih
          rw [hih]

theorem nextRoundAux_cons (cur : List Match) (i : Nat) (rest : List Nat) (c : Nat) :
    nextRoundAux cur (i :: rest) c =
      (if ((if i < cur.length then (cur.getD i default).winner else none).isSome
           && (if i + 1 < cur.length then (cur.getD (i + 1) default).winner else none).isSome)
       then ((⟨(if i < cur.length then (cur.getD i default).winner else none),
               (if i + 1 < cur.length then (cur.getD (i + 1) default).winner else none),
               none, c⟩ : Match) :: (nextRoundAux cur rest (c + 1)).1,
             (nextRoundAux cur rest (c + 1)).2)
       else ((⟨(if i < cur.length then (cur.getD i default).winner else none),
               (if i + 1 < cur.length then (cur.getD (i + 1) default).winner else none),
               none, 0⟩ : Match) :: (nextRoundAux cur rest c).1,
             (nextRoundAux cur rest c).2)) := rfl

theorem nextRoundAux_per_match (cur : List Match) :
    ∀ (idxs : List Nat) (c : Nat), 1 ≤ c →
      ∀ m ∈ (nextRoundAux cur idxs c).1,
        m.winner = none ∧ m.has_both_athletes = (m.number != 0) := by
  intro idxs
  induction idxs with
  | nil => intro c _ m hm; simp [nextRoundAux] at hm
  | cons i rest ih =>
      intro c hc m hm
      rw [nextRoundAux_cons] at hm
      by_cases hw : ((if i < cur.length then (cur.getD i default).winner else none).isSome
          && (if i + 1 < cur.length then (cur.getD (i + 1) default).winner else none).isSome) = true
      · rw [if_pos hw] at hm
        rcases List.mem_cons.mp hm with rfl | hm'
        · refine ⟨rfl, ?_⟩
          rw [Match.has_both_athletes]
          simp only
          rw [hw]
          have hc0 : c ≠ 0 := by omega
          exact (by simpa using hc0 : (c != 0) = true).symm
        · exact ih (c + 1) (by omega) m hm'
      · rw [if_neg hw] at hm
        rcases List.mem_cons.mp hm with rfl | hm'
        · refine ⟨rfl, ?_⟩
          rw [Match.has_both_athletes]
          simp only
          rw [Bool.not_eq_true] at hw
          rw [hw]
          simp
        · exact ih c hc m hm'

theorem nextRoundAux_numbersOf (cur : List Match) :
    ∀ (idxs : List Nat) (c : Nat), 1 ≤ c →
      numbersOf (nextRoundAux cur idxs c).1
          = List.range' c (countHB (nextRoundAux cur idxs c).1) ∧
      (nextRoundAux cur idxs c).2 = c + countHB (nextRoundAux cur idxs c).1 := by
  intro idxs
  induction idxs with
  | nil => intro c _; simp [nextRoundAux, numbersOf, countHB]
  | cons i rest ih =>
      intro c hc
      rw [nextRoundAux_cons]
      by_cases hw : ((if i < cur.length then (cur.getD i default).winner else none).isSome
          && (if i + 1 < cur.length then (cur.getD (i + 1) default).winner else none).isSome) = true
      · rw [if_pos hw]
        have hih := ih (c + 1) (by omega)
        rw [numbersOf, countHB] at hih
        have hcne : (((⟨(if i < cur.length then (cur.getD i default).winner else none),
            (if i + 1 < cur.length then (cur.getD (i + 1) default).winner else none),
            none, c⟩ : Match)).number != 0) = true := by
          have hc0 : c ≠ 0 := by omega
          simpa using hc0
        have hbh : ((⟨(if i < cur.length then (cur.getD i default).winner else none),
            (if i + 1 < cur.length then (cur.getD (i + 1) default).winner else none),
            none, c⟩ : Match)).has_both_athletes = true := hw
        constructor
        · rw [numbersOf, countHB]
          dsimp only
          rw [List.filter_cons, List.countP_cons, if_pos hcne, if_pos hbh, List.map_cons]
          rw [hih.1, List.range'_succ]
        · rw [countHB]
          dsimp only
          rw [List.countP_cons, if_pos hbh]
          rw [hih.2]
          omega
      · rw [if_neg hw]
        have hih := ih c hc
        rw [numbersOf, countHB] at hih
        have hcne : (((⟨(if i < cur.length then (cur.getD i default).winner else none),
            (if i + 1 < cur.length then (cur.getD (i + 1) default).winner else none),
            none, 0⟩ : Match)).number != 0) = false := by simp
        have hbh : ((⟨(if i < cur.length then (cur.getD i default).winner else none),
            (if i + 1 < cur.length then (cur.getD (i + 1) default).winner else none),
            none, 0⟩ : Match)).has_both_athletes = false := by
          rw [Match.has_both_athletes]
          simp only
          rwa [Bool.not_eq_true] at hw
        constructor
        · rw [numbersOf, countHB]
          dsimp only
          rw [List.filter_cons, List.countP_cons, if_neg (by rw [hcne]; simp),
            if_neg (by rw [hbh]; simp), Nat.add_zero]
          exact hih.1
        · rw [countHB]
          dsimp only
          rw [List.countP_cons, if_neg (by rw [hbh]; simp), Nat.add_zero]
          exact hih.2

theorem buildNextRound_numbersOf (cur : List Match) (c : Nat) (hc : 1 ≤ c) :
    numbersOf (buildNextRound cur c).1 = List.range' c (countHB (buildNextRound cur c).1) ∧
    (buildNextRound cur c).2 = c + countHB (buildNextRound cur c).1 := by
  rw [buildNextRound]
  exact nextRoundAux_numbersOf cur _ c hc

theorem buildNextRound_per_match (cur : List Match) (c : Nat) (hc : 1 ≤ c) :
    ∀ m ∈ (buildNextRound cur c).1, m.winner = none ∧ m.has_both_athletes = (m.number != 0) := by
  rw [buildNextRound]
  exact nextRoundAux_per_match cur _ c hc

theorem range'_one_append (a b : Nat) (ha : 1 ≤ a) :
    List.range' 1 (a - 1) ++ List.range' a b = List.range' 1 (a - 1 + b) := by
  have h := List.range'_append 1 (a - 1) b 1
  rw [Nat.one_mul, show 1 + (a - 1) = a by omega] at h
  rw [h]
  congr 1
  omega

theorem subRoundsAux_numbersOf :
    ∀ (fuel : Nat) (cur : List Match) (c : Nat) (rounds : List (List Match)) (names : List String),
      1 ≤ c →
      numbersOf rounds.flatten = List.range' 1 (c - 1) →
      c = countHB rounds.flatten + 1 →
      numbersOf ((subRoundsAux fuel cur c rounds names).1).flatten
        = List.range' 1 (countHB ((subRoundsAux fuel cur c rounds names).1).flatten) := by
  intro fuel
  induction fuel with
  | zero =>
      intro cur c rounds names hc h1 h2
      rw [subRoundsAux]
      dsimp only
      rw [h1]
      congr 1
      omega
  | succ fuel ih =>
      intro cur c rounds names hc h1 h2
      rw [subRoundsAux]
      by_cases hgt : cur.length > 1
      · rw [if_pos hgt]
        have hbn := buildNextRound_numbersOf cur c hc
        have hflat : (rounds ++ [(buildNextRound cur c).1]).flatten
            = rounds.flatten ++ (buildNextRound cur c).1 := by
          rw [List.flatten_append]
          simp
        refine ih _ _ _ _ ?_ ?_ ?_
        · omega
        · rw [hflat, numbersOf_append, h1, hbn.1, hbn.2]
          rw [range'_one_append c (countHB (buildNextRound cur c).1) hc]
          congr 1
          omega
        · rw [hflat, countHB_append, hbn.2]
          omega
      · rw [if_neg hgt]
        dsimp only
        rw [h1]
        congr 1
        omega

theorem subRoundsAux_per_match :
    ∀ (fuel : Nat) (cur : List Match) (c : Nat) (rounds : List (List Match)) (names : List String),
      1 ≤ c →
      (∀ m ∈ rounds.flatten, m.has_both_athletes = (m.number != 0)) →
      ∀ m ∈ ((subRoundsAux fuel cur c rounds names).1).flatten,
        m.has_both_athletes = (m.number != 0) := by
  intro fuel
  induction fuel with
  | zero =>
      intro cur c rounds names _ hr m hm
      rw [subRoundsAux] at hm
      exact hr m hm
  | succ fuel ih =>
      intro cur c rounds names hc hr m hm
      rw [subRoundsAux] at hm
      by_cases hgt : cur.length > 1
      · rw [if_pos hgt] at hm
        have hbn := buildNextRound_numbersOf cur c hc
        refine ih _ _ _ _ (by omega) ?_ m hm
        intro m' hm'
        rw [List.flatten_append] at hm'
        rcases List.mem_append.mp hm' with h | h
        · exact hr m' h
        · have h' : m' ∈ (buildNextRound cur c).1 := by simpa using h
          exact (buildNextRound_per_match cur c hc m' h').2
      · rw [if_neg hgt] at hm
        exact hr m hm

theorem subRoundsAux_winner_none :
    ∀ (fuel : Nat) (cur : List Match) (c : Nat) (rounds : List (List Match)) (names : List String),
      1 ≤ c →
      (∀ j, 1 ≤ j → ∀ m ∈ rounds.getD j [], m.winner = none) →
      ∀ j, 1 ≤ j → ∀ m ∈ ((subRoundsAux fuel cur c rounds names).1).getD j [], m.winner = none := by
  intro fuel
  induction fuel with
  | zero =>
      intro cur c rounds names _ hr j hj m hm
      rw [subRoundsAux] at hm
      exact hr j hj m hm
  | succ fuel ih =>
      intro cur c rounds names hc hr j hj m hm
      rw [subRoundsAux] at hm
      by_cases hgt : cur.length > 1
      · rw [if_pos hgt] at hm
        have hbn := buildNextRound_numbersOf cur c hc
        refine ih _ _ _ _ (by omega) ?_ j hj m hm
        intro j' hj' m' hm'
        rcases Nat.lt_trichotomy j' rounds.length with hlt | heq | hgt'
        · rw [getD_append_lt _ _ _ _ hlt] at hm'
          exact hr j' hj' m' hm'
        · rw [heq, getD_append_singleton] at hm'
          exact (buildNextRound_per_match cur c hc m' hm').1
        · rw [List.getD_eq_default _ _ (by simp; omega)] at hm'
          simp at hm'
      · rw [if_neg hgt] at hm
        exact hr j hj m hm

theorem subRoundsAux_getD_zero :
    ∀ (fuel : Nat) (cur : List Match) (c : Nat) (rounds : List (List Match)) (names : List String),
      rounds ≠ [] →
      ((subRoundsAux fuel cur c rounds names).1).getD 0 [] = rounds.getD 0 [] := by
  intro fuel
  induction fuel with
  | zero => intro cur c rounds names _; rw [subRoundsAux]
  | succ fuel ih =>
      intro cur c rounds names hne
      rw [subRoundsAux]
      by_cases hgt : cur.length > 1
      · rw [if_pos hgt]
        rw [ih _ _ _ _ (by simp)]
        exact getD_append_lt _ _ _ _ (List.length_pos.mpr hne)
      · rw [if_neg hgt]

theorem construct_first_round (athletes : List Athlete) (category : String)
    (h : 1 < athletes.length) :
    (construct athletes category).rounds.getD 0 [] = firstRoundOf athletes := by
  rw [construct_rounds_eq athletes category h]
  rw [subRoundsAux_getD_zero _ _ _ _ _ (by simp)]
  rfl

theorem firstRoundOf_hb_number (athletes : List Athlete) :
    ∀ m ∈ firstRoundOf athletes, m.has_both_athletes = (m.number != 0) := by
  rw [firstRoundOf, _create_first_round]
  exact firstRoundAux_hb_number _ _ 1 (by omega)

theorem firstRoundOf_numbersOf (athletes : List Athlete) :
    numbersOf (firstRoundOf athletes) = List.range' 1 (countHB (firstRoundOf athletes)) := by
  rw [firstRoundOf, _create_first_round]
  exact firstRoundAux_numbersOf _ _ 1 (by omega)

/-- C3: over the whole bracket, in round order and left-to-right within each
round, the nonzero match numbers are exactly `1..M` (no gaps, no repeats),
and a match with exactly one populated slot is never numbered. -/
theorem c3_match_numbering (athletes : List Athlete) (category : String) :
    numbersOf ((construct athletes category).rounds).flatten
      = List.range' 1 (numbersOf ((construct athletes category).rounds).flatten).length ∧
    ∀ m ∈ ((construct athletes category).rounds).flatten, m.is_bye = true → m.number = 0 := by
  by_cases hlen : 1 < athletes.length
  · have hper : ∀ m ∈ ((construct athletes category).rounds).flatten,
        m.has_both_athletes = (m.number != 0) := by
      rw [construct_rounds_eq athletes category hlen]
      refine subRoundsAux_per_match _ _ _ _ _ (by omega) ?_
      intro m hm
      have hm' : m ∈ firstRoundOf athletes := by simpa using hm
      exact firstRoundOf_hb_number athletes m hm'
    constructor
    · have hnum : numbersOf ((construct athletes category).rounds).flatten
          = List.range' 1 (countHB ((construct athletes category).rounds).flatten) := by
        rw [construct_rounds_eq athletes category hlen]
        refine subRoundsAux_numbersOf _ _ _ _ _ (by omega) ?_ ?_
        · have h1 := firstRoundOf_numbersOf athletes
          simpa using h1
        · simp
      rw [hnum, List.length_range']
    · intro m hm hbye
      have h1 := hper m hm
      rw [is_bye_not_hb m hbye] at h1
      have h2 : (m.number != 0) = false := h1.symm
      simpa using h2
  · have hsm := construct_small athletes category (by omega)
    rw [hsm.1]
    refine ⟨by simp [numbersOf], by simp⟩

theorem c3_witness :
    (numbersOf ((construct trio "X").rounds).flatten
      = List.range' 1 (numbersOf ((construct trio "X").rounds).flatten).length) ∧
    ((construct trio "X").rounds.getD 0 []).getD 1 default ∈ ((construct trio "X").rounds).flatten ∧
    (((construct trio "X").rounds.getD 0 []).getD 1 default).is_bye = true ∧
    (((construct trio "X").rounds.getD 0 []).getD 1 default).number = 0 :=
  ⟨(c3_match_numbering trio "X").1, by decide, by decide,
   (c3_match_numbering trio "X").2 (((construct trio "X").rounds.getD 0 []).getD 1 default)
     (by decide) (by decide)⟩

/-- C7 amended: a match with exactly one populated slot is never numbered in
any round; in the first round its winner is the populated competitor, but in
every later round its winner is left unset (`none`) — the code never runs
`process_bye` on rounds after the first. -/
theorem c7_bye_matches_amended (athletes : List Athlete) (category : String) :
    (∀ m ∈ (construct athletes category).rounds.getD 0 [], m.is_bye = true →
      m.winner = (if m.athlete1.isSome then m.athlete1 else m.athlete2) ∧ m.number = 0) ∧
    (∀ j, 1 ≤ j → ∀ m ∈ (construct athletes category).rounds.getD j [], m.is_bye = true →
      m.winner = none ∧ m.number = 0) := by
  by_cases hlen : 1 < athletes.length
  · have hper : ∀ m ∈ ((construct athletes category).rounds).flatten,
        m.has_both_athletes = (m.number != 0) := by
      rw [construct_rounds_eq athletes category hlen]
      refine subRoundsAux_per_match _ _ _ _ _ (by omega) ?_
      intro m hm
      have hm' : m ∈ firstRoundOf athletes := by simpa using hm
      exact firstRoundOf_hb_number athletes m hm'
    have hnum0 : ∀ j, ∀ m ∈ (construct athletes category).rounds.getD j [],
        m.is_bye = true → m.number = 0 := by
      intro j m hm hbye
      by_cases hj : j < (construct athletes category).rounds.length
      · have hmem : m ∈ ((construct athletes category).rounds).flatten := by
          rw [List.mem_flatten]
          refine ⟨(construct athletes category).rounds.getD j [], ?_, hm⟩
          rw [List.getD_eq_getElem _ _ hj]
          exact List.getElem_mem hj
        have h1 := hper m hmem
        rw [is_bye_not_hb m hbye] at h1
        have h2 : (m.number != 0) = false := h1.symm
        simpa using h2
      · rw [List.getD_eq_default _ _ (by omega)] at hm
        simp at hm
    constructor
    · intro m hm hbye
      refine ⟨?_, hnum0 0 m hm hbye⟩
      rw [construct_first_round athletes category hlen] at hm
      rw [firstRoundOf, _create_first_round] at hm
      exact firstRoundAux_bye_winner (initialBracketOf athletes) _ 1 m hm hbye
    · have hw : ∀ j, 1 ≤ j →
          ∀ m ∈ (construct athletes category).rounds.getD j [], m.winner = none := by
        rw [construct_rounds_eq athletes category hlen]
        intro j hj m hm
        refine subRoundsAux_winner_none _ _ _ _ _ (by omega) ?_ j hj m hm
        intro j' hj' m' hm'
        rw [List.getD_eq_default _ _ (by simp; omega)] at hm'
        simp at hm'
      intro j hj m hm hbye
      exact ⟨hw j hj m hm, hnum0 j m hm hbye⟩
  · have hsm := construct_small athletes category (by omega)
    rw [hsm.1]
    constructor
    · intro m hm
      rw [List.getD_eq_default _ _ (by simp)] at hm
      simp at hm
    · intro j hj m hm
      rw [List.getD_eq_default _ _ (by simp)] at hm
      simp at hm

theorem c7_witness :
    (((construct trio "X").rounds.getD 0 []).getD 1 default
        ∈ (construct trio "X").rounds.getD 0 []) ∧
    ((((construct trio "X").rounds.getD 0 []).getD 1 default).is_bye = true) ∧
    ((((construct trio "X").rounds.getD 0 []).getD 1 default).winner
      = (if (((construct trio "X").rounds.getD 0 []).getD 1 default).athlete1.isSome
         then (((construct trio "X").rounds.getD 0 []).getD 1 default).athlete1
         else (((construct trio "X").rounds.getD 0 []).getD 1 default).athlete2) ∧
     (((construct trio "X").rounds.getD 0 []).getD 1 default).number = 0) :=
  ⟨by decide, by decide,
   (c7_bye_matches_amended trio "X").1 (((construct trio "X").rounds.getD 0 []).getD 1 default)
     (by decide) (by decide)⟩

theorem getD_mem_of_lt {α : Type} (l : List α) (i : Nat) (d : α) (h : i < l.length) :
    l.getD i d ∈ l := by
  rw [List.getD_eq_getElem _ _ h]
  exact List.getElem_mem h

theorem partner_partner (x : Nat) : partner (partner x) = x := by
  rw [partner, partner]
  split <;> split <;> omega

theorem partner_compl (c x : Nat) (hodd : c % 2 = 1) (hx : x < c) :
    c - partner x = partner (c - x) := by
  rw [partner, partner]
  split <;> split <;> omega

theorem gsoAux_two_pow : ∀ (k fuel : Nat), 2 ^ k ≤ fuel → gsoAux fuel (2 ^ k) = sRec k := by
  intro k
  induction k with
  | zero => intro fuel _; rw [pow_zero]; cases fuel <;> rfl
  | succ k ih =>
      intro fuel hfuel
      rcases Nat.lt_or_ge (k + 1) 8 with h8 | h8
      · have hk : k ≤ 6 := by omega
        interval_cases k <;> norm_num <;> cases fuel <;> rfl
      · have hg : 256 ≤ 2 ^ (k + 1) := by
          calc (256 : Nat) = 2 ^ 8 := by norm_num
          _ ≤ 2 ^ (k + 1) := Nat.pow_le_pow_right (by norm_num) h8
        cases fuel with
        | zero =>
            have := Nat.pos_pow_of_pos (k + 1) (show 0 < 2 by norm_num)
            omega
        | succ f =>
            rw [gsoAux]
            rw [if_neg (by omega), if_neg (by omega)]
            rw [if_neg (by omega), if_neg (by omega)]
            rw [if_neg (by omega), if_neg (by omega)]
            rw [if_neg (by omega), if_neg (by omega)]
            show (gsoAux f (2 ^ (k + 1) / 2)).flatMap (fun p => [p, 2 ^ (k + 1) - 1 - p])
              = sRec (k + 1)
            have hdiv : 2 ^ (k + 1) / 2 = 2 ^ k := by
              rw [pow_succ]
              omega
            have hf : 2 ^ k ≤ f := by
              have h2 : 2 ^ (k + 1) = 2 * 2 ^ k := by rw [pow_succ]; ring
              omega
            rw [hdiv, ih f hf]
            rfl

theorem generate_seeding_order_two_pow (k : Nat) :
    generate_seeding_order (2 ^ k) = sRec k :=
  gsoAux_two_pow k (2 ^ k) (Nat.le_refl _)

theorem flatMap_pair_length (l : List Nat) (c : Nat) :
    (l.flatMap (fun p => [p, c - p])).length = 2 * l.length := by
  induction l with
  | nil => rfl
  | cons a l ih =>
      rw [List.flatMap_cons, List.length_append, ih, List.length_cons]
      simp
      omega

theorem sRec_length : ∀ k, (sRec k).length = 2 ^ k := by
  intro k
  cases k with
  | zero => rfl
  | succ k =>
      rw [sRec, flatMap_pair_length, sRec_length k, pow_succ]
      ring

theorem sRec_mem : ∀ k v, v ∈ sRec k ↔ v < 2 ^ k := by
  intro k
  induction k with
  | zero =>
      intro v
      simp [sRec, Nat.lt_one_iff]
  | succ k ih =>
      intro v
      rw [sRec, List.mem_flatMap]
      have h2 : 2 ^ (k + 1) = 2 * 2 ^ k := by rw [pow_succ]; ring
      constructor
      · rintro ⟨p, hp, hv⟩
        have hpk : p < 2 ^ k := (ih p).mp hp
        simp at hv
        rcases hv with rfl | rfl
        all_goals omega
      · intro hv
        rcases Nat.lt_or_ge v (2 ^ k) with h | h
        · exact ⟨v, (ih v).mpr h, by simp⟩
        · refine ⟨2 ^ (k + 1) - 1 - v, (ih _).mpr (by omega), ?_⟩
          simp
          right
          omega

theorem sRec_getD_lt (k i : Nat) (hi : i < 2 ^ k) : (sRec k).getD i 0 < 2 ^ k := by
  have hlen : i < (sRec k).length := by rw [sRec_length]; exact hi
  exact (sRec_mem k _).mp (getD_mem_of_lt _ i 0 hlen)

theorem sRec_nodup : ∀ k, (sRec k).Nodup := by
  intro k
  induction k with
  | zero => simp [sRec]
  | succ k ih =>
      rw [sRec, List.nodup_flatMap]
      have h2 : 2 ^ (k + 1) = 2 * 2 ^ k := by rw [pow_succ]; ring
      constructor
      · intro p hp
        have hpk : p < 2 ^ k := (sRec_mem k p).mp hp
        simp
        omega
      · refine List.Pairwise.imp_of_mem ?_ ih
        intro p q hp hq hne
        have hpk : p < 2 ^ k := (sRec_mem k p).mp hp
        have hqk : q < 2 ^ k := (sRec_mem k q).mp hq
        intro x hx hx'
        simp at hx hx'
        rcases hx with rfl | rfl <;> rcases hx' with h | h <;> omega

theorem flatMap_pair_getD_even (l : List Nat) (c : Nat) :
    ∀ t, t < l.length → (l.flatMap (fun p => [p, c - p])).getD (2 * t) 0 = l.getD t 0 := by
  induction l with
  | nil => intro t ht; simp at ht
  | cons a l ih =>
      intro t ht
      cases t with
      | zero => rfl
      | succ t =>
          rw [List.flatMap_cons]
          show (a :: (c - a) :: l.flatMap (fun p => [p, c - p])).getD (2 * (t + 1)) 0 = _
          rw [show 2 * (t + 1) = 2 * t + 1 + 1 by ring]
          rw [List.getD_cons_succ, List.getD_cons_succ, List.getD_cons_succ]
          exact ih t (by simpa using Nat.lt_of_succ_lt_succ ht)

theorem flatMap_pair_getD_odd (l : List Nat) (c : Nat) :
    ∀ t, t < l.length →
      (l.flatMap (fun p => [p, c - p])).getD (2 * t + 1) 0 = c - l.getD t 0 := by
  induction l with
  | nil => intro t ht; simp at ht
  | cons a l ih =>
      intro t ht
      cases t with
      | zero => rfl
      | succ t =>
          rw [List.flatMap_cons]
          show (a :: (c - a) :: l.flatMap (fun p => [p, c - p])).getD (2 * (t + 1) + 1) 0 = _
          rw [show 2 * (t + 1) + 1 = 2 * t + 1 + 1 + 1 by ring]
          rw [List.getD_cons_succ, List.getD_cons_succ, List.getD_cons_succ]
          exact ih t (by simpa using Nat.lt_of_succ_lt_succ ht)

theorem sRec_pairing : ∀ k, ∀ i, i < 2 ^ k →
    (sRec (k + 1)).getD (i + 2 ^ k) 0 = partner ((sRec (k + 1)).getD i 0) := by
  intro k
  induction k with
  | zero =>
      intro i hi
      interval_cases i
      rfl
  | succ k ih =>
      intro i hi
      have hlen : (sRec (k + 1)).length = 2 ^ (k + 1) := sRec_length (k + 1)
      have h21 : 2 ^ (k + 1) = 2 * 2 ^ k := by rw [pow_succ]; ring
      have h22 : 2 ^ (k + 1 + 1) = 2 * 2 ^ (k + 1) := by rw [pow_succ]; ring
      have hmod : i = 2 * (i / 2) + i % 2 := by omega
      rw [show sRec (k + 1 + 1) = (sRec (k + 1)).flatMap
          (fun p => [p, 2 ^ (k + 1 + 1) - 1 - p]) from rfl]
      rcases Nat.mod_two_eq_zero_or_one i with hpar | hpar
      · -- even: i = 2 * t
        have ht : i / 2 < 2 ^ k := by omega
        have hidx : i + 2 ^ (k + 1) = 2 * (i / 2 + 2 ^ k) := by omega
        conv_lhs => rw [hidx]
        conv_rhs => rw [show i = 2 * (i / 2) by omega]
        rw [flatMap_pair_getD_even _ _ (i / 2 + 2 ^ k) (by rw [hlen]; omega)]
        rw [flatMap_pair_getD_even _ _ (i / 2) (by rw [hlen]; omega)]
        exact ih (i / 2) ht
      · -- odd: i = 2 * t + 1
        have ht : i / 2 < 2 ^ k := by omega
        have hidx : i + 2 ^ (k + 1) = 2 * (i / 2 + 2 ^ k) + 1 := by omega
        conv_lhs => rw [hidx]
        conv_rhs => rw [show i = 2 * (i / 2) + 1 by omega]
        rw [flatMap_pair_getD_odd _ _ (i / 2 + 2 ^ k) (by rw [hlen]; omega)]
        rw [flatMap_pair_getD_odd _ _ (i / 2) (by rw [hlen]; omega)]
        rw [ih (i / 2) ht]
        have hx : (sRec (k + 1)).getD (i / 2) 0 < 2 ^ (k + 1) :=
          sRec_getD_lt (k + 1) (i / 2) (by omega)
        exact partner_compl (2 ^ (k + 1 + 1) - 1) _ (by omega) (by omega)

theorem sRec_couple (k j : Nat) (hj : j < 2 ^ k) :
    ∃ i, i < 2 ^ k ∧
      (((sRec (k + 1)).getD i 0 = 2 * j ∧ (sRec (k + 1)).getD (i + 2 ^ k) 0 = 2 * j + 1) ∨
       ((sRec (k + 1)).getD i 0 = 2 * j + 1 ∧ (sRec (k + 1)).getD (i + 2 ^ k) 0 = 2 * j)) := by
  have h21 : 2 ^ (k + 1) = 2 * 2 ^ k := by rw [pow_succ]; ring
  have hmem : (2 * j) ∈ sRec (k + 1) := (sRec_mem (k + 1) (2 * j)).mpr (by omega)
  have hlen : (sRec (k + 1)).length = 2 ^ (k + 1) := sRec_length (k + 1)
  have hul : List.indexOf (2 * j) (sRec (k + 1)) < (sRec (k + 1)).length :=
    List.indexOf_lt_length.mpr hmem
  have hSu : (sRec (k + 1)).getD (List.indexOf (2 * j) (sRec (k + 1))) 0 = 2 * j := by
    rw [List.getD_eq_getElem _ _ hul]
    exact List.getElem_indexOf hul
  have hpartner : partner (2 * j) = 2 * j + 1 := by
    rw [partner, if_pos (by omega)]
  rcases Nat.lt_or_ge (List.indexOf (2 * j) (sRec (k + 1))) (2 ^ k) with h | h
  · refine ⟨List.indexOf (2 * j) (sRec (k + 1)), h, Or.inl ⟨hSu, ?_⟩⟩
    rw [sRec_pairing k _ h, hSu, hpartner]
  · refine ⟨List.indexOf (2 * j) (sRec (k + 1)) - 2 ^ k, by rw [hlen] at hul; omega,
      Or.inr ⟨?_, ?_⟩⟩
    · have hpair := sRec_pairing k (List.indexOf (2 * j) (sRec (k + 1)) - 2 ^ k)
        (by rw [hlen] at hul; omega)
      rw [show List.indexOf (2 * j) (sRec (k + 1)) - 2 ^ k + 2 ^ k
          = List.indexOf (2 * j) (sRec (k + 1)) by omega] at hpair
      rw [hSu] at hpair
      have hinv := congrArg partner hpair
      rw [partner_partner] at hinv
      rw [← hinv, hpartner]
    · rw [show List.indexOf (2 * j) (sRec (k + 1)) - 2 ^ k + 2 ^ k
          = List.indexOf (2 * j) (sRec (k + 1)) by omega, hSu]

theorem set_getD_ne (br : List (Option Athlete)) (q p : Nat) (v : Option Athlete) (h : q ≠ p) :
    (br.set q v).getD p none = br.getD p none := by
  rcases Nat.lt_or_ge p br.length with hp | hp
  · rw [List.getD_eq_getElem _ _ (by rw [List.length_set]; exact hp),
      List.getD_eq_getElem _ _ hp]
    rw [List.getElem_set, if_neg h]
  · rw [List.getD_eq_default _ _ (by rw [List.length_set]; omega),
      List.getD_eq_default _ _ (by omega)]

theorem set_getD_eq (br : List (Option Athlete)) (q : Nat) (v : Option Athlete)
    (h : q < br.length) :
    (br.set q v).getD q none = v := by
  rw [List.getD_eq_getElem _ _ (by rw [List.length_set]; exact h), List.getElem_set, if_pos rfl]

theorem nodup_getD_ne (o : List Nat) (ho : o.Nodup) (u v : Nat) (hu : u < o.length)
    (hv : v < o.length) (huv : u ≠ v) : o.getD u 0 ≠ o.getD v 0 := by
  rw [List.getD_eq_getElem _ _ hu, List.getD_eq_getElem _ _ hv]
  intro h
  have hinj := List.nodup_iff_injective_get.mp ho
  have heq := @hinj ⟨u, hu⟩ ⟨v, hv⟩ (by simpa using h)
  simp at heq
  exact huv heq

theorem replicate_none_getD (n p : Nat) :
    (List.replicate n (none : Option Athlete)).getD p none = none := by
  rcases Nat.lt_or_ge p n with h | h
  · rw [List.getD_eq_getElem _ _ (by simpa using h)]
    simp
  · rw [List.getD_eq_default _ _ (by simpa using h)]

theorem placeAux_getD_miss (o : List Nat) :
    ∀ (l : List Athlete) (j : Nat) (br : List (Option Athlete)) (p : Nat),
      (∀ t, t < l.length → o.getD (j + t) 0 ≠ p) →
      (placeAux o l j br).getD p none = br.getD p none := by
  intro l
  induction l with
  | nil => intro j br p _; rfl
  | cons a rest ih =>
      intro j br p h
      rw [placeAux]
      rw [ih (j + 1) _ p (by
        intro t ht
        have := h (t + 1) (by simpa using Nat.succ_lt_succ ht)
        rwa [show j + (t + 1) = j + 1 + t by omega] at this)]
      exact set_getD_ne br _ p _ (by simpa using h 0 (by simp))

theorem placeAux_getD_hit (o : List Nat) (ho : o.Nodup) :
    ∀ (l : List Athlete) (j : Nat) (br : List (Option Athlete)) (t : Nat),
      t < l.length → j + l.length ≤ o.length →
      (∀ u, u < o.length → o.getD u 0 < br.length) →
      (placeAux o l j br).getD (o.getD (j + t) 0) none = some (l.getD t default) := by
  intro l
  induction l with
  | nil => intro j br t ht; simp at ht
  | cons a rest ih =>
      intro j br t ht hlen hbnd
      rw [placeAux]
      cases t with
      | zero =>
          rw [placeAux_getD_miss o rest (j + 1) _ _ (by
            intro s hs
            refine nodup_getD_ne o ho _ _ (by simp at hlen; omega) (by simp at hlen; omega)
              (by omega))]
          rw [Nat.add_zero]
          exact set_getD_eq br _ _ (hbnd j (by simp at hlen; omega))
      | succ t =>
          rw [show j + (t + 1) = j + 1 + t by omega]
          rw [ih (j + 1) _ t (by simpa using Nat.lt_of_succ_lt_succ ht)
            (by simp at hlen ⊢; omega)
            (by intro u hu; rw [List.length_set]; exact hbnd u hu)]
          rfl

theorem fillByEnum_getD_miss (sa : List Athlete) :
    ∀ (positions : List Nat) (i : Nat) (br : List (Option Athlete)) (p : Nat),
      ¬ p ∈ positions →
      (fillByEnum sa positions i br).getD p none = br.getD p none := by
  intro positions
  induction positions with
  | nil => intro i br p _; rfl
  | cons pos rest ih =>
      intro i br p hp
      rw [fillByEnum]
      have hpr : ¬ p ∈ rest := fun h => hp (List.mem_cons_of_mem _ h)
      have hpp : pos ≠ p := fun h => hp (h ▸ List.mem_cons_self pos rest)
      split
      · rw [ih _ _ p hpr]
        exact set_getD_ne br _ p _ hpp
      · exact ih _ _ p hpr

theorem fillSeq_getD_miss (sa : List Athlete) :
    ∀ (positions : List Nat) (i : Nat) (br : List (Option Athlete)) (p : Nat),
      ¬ p ∈ positions →
      (fillSeq sa positions i br).getD p none = br.getD p none := by
  intro positions
  induction positions with
  | nil => intro i br p _; rfl
  | cons pos rest ih =>
      intro i br p hp
      rw [fillSeq]
      have hpr : ¬ p ∈ rest := fun h => hp (List.mem_cons_of_mem _ h)
      have hpp : pos ≠ p := fun h => hp (h ▸ List.mem_cons_self pos rest)
      split
      · rw [ih _ _ p hpr]
        exact set_getD_ne br _ p _ hpp
      · exact ih _ _ p hpr

theorem fillByEnum_getD_hit (sa : List Athlete) :
    ∀ (positions : List Nat) (i : Nat) (br : List (Option Athlete)) (t : Nat),
      positions.Nodup → t < positions.length → (∀ q ∈ positions, q < br.length) →
      (fillByEnum sa positions i br).getD (positions.getD t 0) none
        = if i + t < sa.length then some (sa.getD (i + t) default)
          else br.getD (positions.getD t 0) none := by
  intro positions
  induction positions with
  | nil => intro i br t _ ht; simp at ht
  | cons pos rest ih =>
      intro i br t hnd ht hbnd
      have hnd' := List.nodup_cons.mp hnd
      rw [fillByEnum]
      cases t with
      | zero =>
          simp only [List.getD_cons_zero, Nat.add_zero]
          by_cases hi : i < sa.length
          · rw [if_pos hi, if_pos hi]
            rw [fillByEnum_getD_miss sa rest _ _ pos hnd'.1]
            exact set_getD_eq br pos _ (hbnd pos (List.mem_cons_self pos rest))
          · rw [if_neg hi, if_neg hi]
            exact fillByEnum_getD_miss sa rest _ _ pos hnd'.1
      | succ t =>
          rw [List.getD_cons_succ]
          have htr : t < rest.length := by simpa using Nat.lt_of_succ_lt_succ ht
          have hmem : rest.getD t 0 ∈ rest := getD_mem_of_lt rest t 0 htr
          by_cases hi : i < sa.length
          · rw [if_pos hi]
            rw [ih (i + 1) _ t hnd'.2 htr
              (by intro q hq; rw [List.length_set]; exact hbnd q (List.mem_cons_of_mem _ hq))]
            rw [show i + 1 + t = i + (t + 1) by omega]
            rw [set_getD_ne br pos _ _ (fun h => hnd'.1 (h ▸ hmem))]
          · rw [if_neg hi]
            rw [ih (i + 1) _ t hnd'.2 htr (by intro q hq; exact hbnd q (List.mem_cons_of_mem _ hq))]
            rw [show i + 1 + t = i + (t + 1) by omega]

theorem fillSeq_getD_hit (sa : List Athlete) :
    ∀ (positions : List Nat) (i : Nat) (br : List (Option Athlete)) (t : Nat),
      positions.Nodup → t < positions.length → (∀ q ∈ positions, q < br.length) →
      (fillSeq sa positions i br).getD (positions.getD t 0) none
        = if i + t < sa.length then some (sa.getD (i + t) default)
          else br.getD (positions.getD t 0) none := by
  intro positions
  induction positions with
  | nil => intro i br t _ ht; simp at ht
  | cons pos rest ih =>
      intro i br t hnd ht hbnd
      have hnd' := List.nodup_cons.mp hnd
      rw [fillSeq]
      cases t with
      | zero =>
          simp only [List.getD_cons_zero, Nat.add_zero]
          by_cases hi : i < sa.length
          · rw [if_pos hi, if_pos hi]
            rw [fillSeq_getD_miss sa rest _ _ pos hnd'.1]
            exact set_getD_eq br pos _ (hbnd pos (List.mem_cons_self pos rest))
          · rw [if_neg hi, if_neg hi]
            exact fillSeq_getD_miss sa rest _ _ pos hnd'.1
      | succ t =>
          rw [List.getD_cons_succ]
          have htr : t < rest.length := by simpa using Nat.lt_of_succ_lt_succ ht
          have hmem : rest.getD t 0 ∈ rest := getD_mem_of_lt rest t 0 htr
          by_cases hi : i < sa.length
          · rw [if_pos hi]
            rw [ih (i + 1) _ t hnd'.2 htr
              (by intro q hq; rw [List.length_set]; exact hbnd q (List.mem_cons_of_mem _ hq))]
            rw [show i + 1 + t = i + (t + 1) by omega]
            rw [set_getD_ne br pos _ _ (fun h => hnd'.1 (h ▸ hmem))]
          · rw [if_neg hi]
            rw [ih i _ t hnd'.2 htr (by intro q hq; exact hbnd q (List.mem_cons_of_mem _ hq))]
            have hneg1 : ¬ (i + t < sa.length) := by omega
            have hneg2 : ¬ (i + (t + 1) < sa.length) := by omega
            rw [if_neg hneg1, if_neg hneg2]

theorem detect_mem (br : List (Option Athlete)) :
    ∀ (idxs : List Nat) (acc : List Nat) (pos : Nat),
      (pos ∈ idxs.foldl (fun acc i =>
        let p1 := br.getD i none
        let p2 := br.getD (i + 1) none
        if (p1.isSome && !p2.isSome) || (p2.isSome && !p1.isSome) then
          acc ++ [if p1.isSome then i else i + 1]
        else acc) acc)
      ↔ pos ∈ acc ∨ ∃ i ∈ idxs,
          ((((br.getD i none).isSome && !(br.getD (i + 1) none).isSome)
            || ((br.getD (i + 1) none).isSome && !(br.getD i none).isSome)) = true ∧
          pos = (if (br.getD i none).isSome then i else i + 1)) := by
  intro idxs
  induction idxs with
  | nil => intro acc pos; simp
  | cons x xs ih =>
      intro acc pos
      simp only [List.foldl_cons]
      rw [ih]
      by_cases hc : (((br.getD x none).isSome && !(br.getD (x + 1) none).isSome)
          || ((br.getD (x + 1) none).isSome && !(br.getD x none).isSome)) = true
      · rw [if_pos hc]
        constructor
        · rintro (hmem | ⟨i, hi, hci, rfl⟩)
          · rcases List.mem_append.mp hmem with h | h
            · exact Or.inl h
            · exact Or.inr ⟨x, List.mem_cons_self x xs, hc, List.mem_singleton.mp h⟩
          · exact Or.inr ⟨i, List.mem_cons_of_mem _ hi, hci, rfl⟩
        · rintro (hmem | ⟨i, hi, hci, rfl⟩)
          · exact Or.inl (List.mem_append.mpr (Or.inl hmem))
          · rcases List.mem_cons.mp hi with rfl | hi'
            · exact Or.inl (List.mem_append.mpr (Or.inr (by simp)))
            · exact Or.inr ⟨i, hi', hci, rfl⟩
      · rw [if_neg hc]
        constructor
        · rintro (hmem | ⟨i, hi, hci, rfl⟩)
          · exact Or.inl hmem
          · exact Or.inr ⟨i, List.mem_cons_of_mem _ hi, hci, rfl⟩
        · rintro (hmem | ⟨i, hi, hci, rfl⟩)
          · exact Or.inl hmem
          · rcases List.mem_cons.mp hi with rfl | hi'
            · exact absurd hci hc
            · exact Or.inr ⟨i, hi', hci, rfl⟩

theorem detectByePositions_mem (br : List (Option Athlete)) (pos : Nat) :
    pos ∈ detectByePositions br ↔ ∃ j, j < br.length / 2 ∧
      ((((br.getD (2 * j) none).isSome && !(br.getD (2 * j + 1) none).isSome)
        || ((br.getD (2 * j + 1) none).isSome && !(br.getD (2 * j) none).isSome)) = true ∧
      pos = (if (br.getD (2 * j) none).isSome then 2 * j else 2 * j + 1)) := by
  rw [detectByePositions, detect_mem]
  simp

theorem slice_length (S : List Nat) (a b : Nat) (hab : a + b ≤ S.length) :
    ((S.drop a).take b).length = b := by
  rw [List.length_take, List.length_drop]
  omega

theorem slice_getD (S : List Nat) (a b t : Nat) (ht : t < b) (hab : a + b ≤ S.length) :
    ((S.drop a).take b).getD t 0 = S.getD (a + t) 0 := by
  have h1 : t < ((S.drop a).take b).length := by rw [slice_length S a b hab]; exact ht
  rw [List.getD_eq_getElem _ _ h1, List.getD_eq_getElem _ _ (by omega)]
  rw [List.getElem_take, List.getElem_drop]

theorem mem_slice_iff (S : List Nat) (a b : Nat) (hab : a + b ≤ S.length) (pos : Nat) :
    pos ∈ (S.drop a).take b ↔ ∃ t, t < b ∧ pos = S.getD (a + t) 0 := by
  rw [List.mem_iff_getElem]
  constructor
  · rintro ⟨t, ht, rfl⟩
    have htb : t < b := by rw [slice_length S a b hab] at ht; exact ht
    refine ⟨t, htb, ?_⟩
    rw [← slice_getD S a b t htb hab, List.getD_eq_getElem _ _ ht]
  · rintro ⟨t, htb, rfl⟩
    have ht : t < ((S.drop a).take b).length := by rw [slice_length S a b hab]; exact htb
    exact ⟨t, ht, by rw [← List.getD_eq_getElem _ _ ht, slice_getD S a b t htb hab]⟩

theorem filter_slice (S : List Nat) (hnd : S.Nodup) (a b : Nat) (p : Nat → Bool)
    (hp : ∀ x ∈ S, (p x = true) ↔ x ∈ (S.drop a).take b) :
    S.filter p = (S.drop a).take b := by
  have hdec : S = S.take a ++ ((S.drop a).take b ++ (S.drop a).drop b) := by
    rw [List.take_append_drop, List.take_append_drop]
  have hnd2 : (S.take a ++ ((S.drop a).take b ++ (S.drop a).drop b)).Nodup := by
    rw [← hdec]
    exact hnd
  rw [List.nodup_append] at hnd2
  obtain ⟨hnd_take, hnd_rest, hdisj⟩ := hnd2
  rw [List.nodup_append] at hnd_rest
  obtain ⟨hnd_sl, hnd_dr, hdisj2⟩ := hnd_rest
  conv_lhs => rw [hdec]
  rw [List.filter_append, List.filter_append]
  have h1 : (S.take a).filter p = [] := by
    rw [List.filter_eq_nil_iff]
    intro x hx hpx
    have hxS : x ∈ S := (List.take_sublist a S).subset hx
    exact hdisj hx (List.mem_append.mpr (Or.inl ((hp x hxS).mp hpx)))
  have h2 : ((S.drop a).take b).filter p = (S.drop a).take b := by
    rw [List.filter_eq_self]
    intro x hx
    exact (hp x (((List.take_sublist b _).trans (List.drop_sublist a S)).subset hx)).mpr hx
  have h3 : ((S.drop a).drop b).filter p = [] := by
    rw [List.filter_eq_nil_iff]
    intro x hx hpx
    have hxS : x ∈ S := ((List.drop_sublist b _).trans (List.drop_sublist a S)).subset hx
    exact hdisj2 ((hp x hxS).mp hpx) hx
  rw [h1, h2, h3]
  simp

theorem filter_not_slice (S : List Nat) (hnd : S.Nodup) (a b : Nat) (p : Nat → Bool)
    (hp : ∀ x ∈ S, (p x = true) ↔ ¬ x ∈ (S.drop a).take b) :
    S.filter p = S.take a ++ (S.drop a).drop b := by
  have hdec : S = S.take a ++ ((S.drop a).take b ++ (S.drop a).drop b) := by
    rw [List.take_append_drop, List.take_append_drop]
  have hnd2 : (S.take a ++ ((S.drop a).take b ++ (S.drop a).drop b)).Nodup := by
    rw [← hdec]
    exact hnd
  rw [List.nodup_append] at hnd2
  obtain ⟨hnd_take, hnd_rest, hdisj⟩ := hnd2
  rw [List.nodup_append] at hnd_rest
  obtain ⟨hnd_sl, hnd_dr, hdisj2⟩ := hnd_rest
  conv_lhs => rw [hdec]
  rw [List.filter_append, List.filter_append]
  have h1 : (S.take a).filter p = S.take a := by
    rw [List.filter_eq_self]
    intro x hx
    refine (hp x ((List.take_sublist a S).subset hx)).mpr ?_
    intro hsl
    exact hdisj hx (List.mem_append.mpr (Or.inl hsl))
  have h2 : ((S.drop a).take b).filter p = [] := by
    rw [List.filter_eq_nil_iff]
    intro x hx hpx
    exact ((hp x (((List.take_sublist b _).trans (List.drop_sublist a S)).subset hx)).mp hpx) hx
  have h3 : ((S.drop a).drop b).filter p = (S.drop a).drop b := by
    rw [List.filter_eq_self]
    intro x hx
    refine (hp x (((List.drop_sublist b _).trans (List.drop_sublist a S)).subset hx)).mpr ?_
    intro hsl
    exact hdisj2 hsl hx
  rw [h1, h2, h3]
  simp

theorem nodup_getD_inj (o : List Nat) (ho : o.Nodup) (u v : Nat) (hu : u < o.length)
    (hv : v < o.length) (h : o.getD u 0 = o.getD v 0) : u = v := by
  by_contra hne
  exact nodup_getD_ne o ho u v hu hv hne h

theorem getD_append_ge {α : Type} (l₁ l₂ : List α) (d : α) (i : Nat) (h : l₁.length ≤ i)
    (h2 : i < l₁.length + l₂.length) :
    (l₁ ++ l₂).getD i d = l₂.getD (i - l₁.length) d := by
  rw [List.getD_eq_getElem _ _ (by rw [List.length_append]; omega),
    List.getD_eq_getElem _ _ (by omega)]
  exact List.getElem_append_right h

theorem drop_getD (S : List Nat) (a t : Nat) (h : a + t < S.length) :
    (S.drop a).getD t 0 = S.getD (a + t) 0 := by
  rw [List.getD_eq_getElem _ _ (by rw [List.length_drop]; omega), List.getD_eq_getElem _ _ h]
  exact List.getElem_drop S

theorem take_getD (S : List Nat) (a t : Nat) (h1 : t < a) (h2 : t < S.length) :
    (S.take a).getD t 0 = S.getD t 0 := by
  rw [List.getD_eq_getElem _ _ (by rw [List.length_take]; omega), List.getD_eq_getElem _ _ h2]
  exact List.getElem_take S

theorem insertBySeed_append (a : Athlete) :
    ∀ (l : List Athlete), (∀ b ∈ l, b.seed ≤ a.seed) → insertBySeed a l = l ++ [a] := by
  intro l
  induction l with
  | nil => intro _; rfl
  | cons b bs ih =>
      intro h
      rw [insertBySeed, if_pos (h b (List.mem_cons_self b bs))]
      rw [ih (fun x hx => h x (List.mem_cons_of_mem _ hx))]
      rfl

theorem foldl_insert_sorted :
    ∀ (l : List Athlete) (acc : List Athlete),
      l.Pairwise (fun x y => x.seed ≤ y.seed) →
      (∀ b ∈ acc, ∀ x ∈ l, b.seed ≤ x.seed) →
      l.foldl (fun acc a => insertBySeed a acc) acc = acc ++ l := by
  intro l
  induction l with
  | nil => intro acc _ _; simp
  | cons a l ih =>
      intro acc hpw hacc
      rw [List.foldl_cons]
      rw [show insertBySeed a acc = acc ++ [a] from
        insertBySeed_append a acc (fun b hb => hacc b hb a (List.mem_cons_self a l))]
      rw [ih (acc ++ [a]) (List.pairwise_cons.mp hpw).2 ?_]
      · simp
      · intro b hb x hx
        rcases List.mem_append.mp hb with h | h
        · exact hacc b h x (List.mem_cons_of_mem _ hx)
        · simp at h
          subst h
          exact (List.pairwise_cons.mp hpw).1 x hx

theorem reassign_getElem_seed (athletes : List Athlete) (i : Nat)
    (hi : i < (_reassign_seeds athletes).length) :
    ((_reassign_seeds athletes)[i]).seed = (i : Int) + 1 := by
  have hi' : i < athletes.length := by rwa [reassign_length] at hi
  have := reassign_getD athletes i hi'
  rw [List.getD_eq_getElem _ _ hi] at this
  rw [this]

theorem sort_reassigned (athletes : List Athlete) :
    sortAthletesBySeed (_reassign_seeds athletes) = _reassign_seeds athletes := by
  rw [sortAthletesBySeed]
  rw [foldl_insert_sorted _ [] ?_ (by intro b hb; simp at hb)]
  · simp
  · rw [List.pairwise_iff_getElem]
    intro i j hi hj hij
    rw [reassign_getElem_seed athletes i hi, reassign_getElem_seed athletes j hj]
    omega

theorem naive_char (sa : List Athlete) (k : Nat) (hN2 : sa.length ≤ 2 ^ k) :
    ∀ u, u < 2 ^ k →
      (placeAux (sRec k) sa 0 (List.replicate (2 ^ k) (none : Option Athlete))).getD
        ((sRec k).getD u 0) none
      = if u < sa.length then some (sa.getD u default) else none := by
  intro u hu
  have hlenS : (sRec k).length = 2 ^ k := sRec_length k
  have hndS : (sRec k).Nodup := sRec_nodup k
  by_cases hun : u < sa.length
  · rw [if_pos hun]
    have := placeAux_getD_hit (sRec k) hndS sa 0
      (List.replicate (2 ^ k) (none : Option Athlete)) u hun
      (by rw [hlenS]; omega)
      (by
        intro v hv
        rw [List.length_replicate]
        exact sRec_getD_lt k v (by rwa [hlenS] at hv))
    rwa [Nat.zero_add] at this
  · rw [if_neg hun]
    rw [placeAux_getD_miss (sRec k) sa 0 _ _ (by
      intro t ht
      rw [Nat.zero_add]
      exact nodup_getD_ne (sRec k) hndS t u (by rw [hlenS]; omega) (by rw [hlenS]; omega)
        (by omega))]
    exact replicate_none_getD (2 ^ k) _

theorem detect_naive (sa : List Athlete) (k : Nat) (hk : 1 ≤ k)
    (hN1 : 2 ^ (k - 1) < sa.length) (hN2 : sa.length ≤ 2 ^ k) (pos : Nat) :
    pos ∈ detectByePositions
        (placeAux (sRec k) sa 0 (List.replicate (2 ^ k) (none : Option Athlete)))
      ↔ ∃ u, sa.length - 2 ^ (k - 1) ≤ u ∧ u < 2 ^ (k - 1) ∧ pos = (sRec k).getD u 0 := by
  have hky : k - 1 + 1 = k := by omega
  have hBH : 2 ^ k = 2 * 2 ^ (k - 1) := by
    conv_lhs => rw [show k = k - 1 + 1 by omega]
    rw [pow_succ]
    ring
  have hchar := naive_char sa k hN2
  have hlenS : (sRec k).length = 2 ^ k := sRec_length k
  have hndS : (sRec k).Nodup := sRec_nodup k
  have hnaive_len :
      (placeAux (sRec k) sa 0 (List.replicate (2 ^ k) (none : Option Athlete))).length
        = 2 ^ k := by
    rw [placeAux_length, List.length_replicate]
  set nv : List (Option Athlete) :=
    placeAux (sRec k) sa 0 (List.replicate (2 ^ k) (none : Option Athlete)) with hnv
  rw [detectByePositions_mem, hnaive_len]
  constructor
  · rintro ⟨j, hj, hcond, rfl⟩
    have hjH : j < 2 ^ (k - 1) := by omega
    have couple := sRec_couple (k - 1) j hjH
    rw [hky] at couple
    obtain ⟨u, huH, hcpl⟩ := couple
    have huN : u < sa.length := by omega
    rcases hcpl with ⟨hA, hB2⟩ | ⟨hA, hB2⟩
    · have h2j : nv.getD (2 * j) none = some (sa.getD u default) := by
        rw [← hA, hchar u (by omega), if_pos huN]
      have h2j1 : nv.getD (2 * j + 1) none
          = if u + 2 ^ (k - 1) < sa.length then some (sa.getD (u + 2 ^ (k - 1)) default)
            else none := by
        rw [← hB2, hchar (u + 2 ^ (k - 1)) (by omega)]
      by_cases huF : u + 2 ^ (k - 1) < sa.length
      · rw [h2j, h2j1, if_pos huF] at hcond
        simp at hcond
      · rw [h2j1, if_neg huF] at hcond
        refine ⟨u, by omega, huH, ?_⟩
        rw [h2j]
        simp only [Option.isSome_some, if_pos]
        exact hA.symm
    · have h2j1 : nv.getD (2 * j + 1) none = some (sa.getD u default) := by
        rw [← hA, hchar u (by omega), if_pos huN]
      have h2j : nv.getD (2 * j) none
          = if u + 2 ^ (k - 1) < sa.length then some (sa.getD (u + 2 ^ (k - 1)) default)
            else none := by
        rw [← hB2, hchar (u + 2 ^ (k - 1)) (by omega)]
      by_cases huF : u + 2 ^ (k - 1) < sa.length
      · rw [h2j, if_pos huF, h2j1] at hcond
        simp at hcond
      · refine ⟨u, by omega, huH, ?_⟩
        rw [h2j, if_neg huF]
        simp only [Option.isSome_none, Bool.false_eq_true, if_neg]
        exact hA.symm
  · rintro ⟨u, huNH, huH, rfl⟩
    have huN : u < sa.length := by omega
    have hSu_lt : (sRec k).getD u 0 < 2 ^ k := sRec_getD_lt k u (by omega)
    have hjH : (sRec k).getD u 0 / 2 < 2 ^ (k - 1) := by omega
    have couple := sRec_couple (k - 1) ((sRec k).getD u 0 / 2) hjH
    rw [hky] at couple
    obtain ⟨w, hwH, hcpl⟩ := couple
    have hj2 : (sRec k).getD u 0 = 2 * ((sRec k).getD u 0 / 2)
        ∨ (sRec k).getD u 0 = 2 * ((sRec k).getD u 0 / 2) + 1 := by omega
    have hwu : w = u := by
      rcases hcpl with ⟨hA, hB2⟩ | ⟨hA, hB2⟩ <;> rcases hj2 with h | h
      · exact nodup_getD_inj (sRec k) hndS w u (by rw [hlenS]; omega) (by rw [hlenS]; omega)
          (by rw [hA, ← h])
      · exfalso
        have := nodup_getD_inj (sRec k) hndS (w + 2 ^ (k - 1)) u (by rw [hlenS]; omega)
          (by rw [hlenS]; omega) (by rw [hB2, ← h])
        omega
      · exfalso
        have := nodup_getD_inj (sRec k) hndS (w + 2 ^ (k - 1)) u (by rw [hlenS]; omega)
          (by rw [hlenS]; omega) (by rw [hB2, ← h])
        omega
      · exact nodup_getD_inj (sRec k) hndS w u (by rw [hlenS]; omega) (by rw [hlenS]; omega)
          (by rw [hA, ← h])
    subst hwu
    refine ⟨(sRec k).getD w 0 / 2, by omega, ?_, ?_⟩
    · rcases hcpl with ⟨hA, hB2⟩ | ⟨hA, hB2⟩
      · have h2j : nv.getD (2 * ((sRec k).getD w 0 / 2)) none = some (sa.getD w default) := by
          rw [← hA, hchar w (by omega), if_pos huN]
        have h2j1 : nv.getD (2 * ((sRec k).getD w 0 / 2) + 1) none = none := by
          rw [← hB2, hchar (w + 2 ^ (k - 1)) (by omega), if_neg (by omega)]
        rw [h2j, h2j1]
        simp
      · have h2j1 : nv.getD (2 * ((sRec k).getD w 0 / 2) + 1) none
            = some (sa.getD w default) := by
          rw [← hA, hchar w (by omega), if_pos huN]
        have h2j : nv.getD (2 * ((sRec k).getD w 0 / 2)) none = none := by
          rw [← hB2, hchar (w + 2 ^ (k - 1)) (by omega), if_neg (by omega)]
        rw [h2j, h2j1]
        simp
    · rcases hcpl with ⟨hA, hB2⟩ | ⟨hA, hB2⟩
      · have h2j : nv.getD (2 * ((sRec k).getD w 0 / 2)) none = some (sa.getD w default) := by
          rw [← hA, hchar w (by omega), if_pos huN]
        rw [h2j]
        simp only [Option.isSome_some, if_pos]
        exact hA
      · have h2j : nv.getD (2 * ((sRec k).getD w 0 / 2)) none = none := by
          rw [← hB2, hchar (w + 2 ^ (k - 1)) (by omega), if_neg (by omega)]
        rw [h2j]
        simp only [Option.isSome_none, Bool.false_eq_true, if_false]
        exact hA

/-- Closed form of the rebalanced initial placement: reading the final array
along the seeding order `sRec k`, the positions with order-priority in
`[N-H, H)` (the bye slots, `H = 2^(k-1)`) hold the top-ranked athletes, the
other positions with priority `< N` hold the remaining athletes in order, and
the last `2^k - N` priorities are empty. -/
theorem optimize_closed_form (sa : List Athlete) (k : Nat) (hk : 1 ≤ k)
    (hN1 : 2 ^ (k - 1) < sa.length) (hN2 : sa.length ≤ 2 ^ k) :
    ∀ i, i < 2 ^ k →
      (_optimize_bye_positions
          (placeAux (sRec k) sa 0 (List.replicate (2 ^ k) (none : Option Athlete)))
          (sRec k) sa).getD ((sRec k).getD i 0) none
      = (if i < sa.length - 2 ^ (k - 1) then some (sa.getD (2 ^ k - sa.length + i) default)
         else if i < 2 ^ (k - 1) then some (sa.getD (i - (sa.length - 2 ^ (k - 1))) default)
         else if i < sa.length then some (sa.getD i default)
         else none) := by
  intro i hi
  have hBH : 2 ^ k = 2 * 2 ^ (k - 1) := by
    conv_lhs => rw [show k = k - 1 + 1 by omega]
    rw [pow_succ]
    ring
  have hchar := naive_char sa k hN2
  have hdet := detect_naive sa k hk hN1 hN2
  have hlenS : (sRec k).length = 2 ^ k := sRec_length k
  have hndS : (sRec k).Nodup := sRec_nodup k
  have hnaive_len :
      (placeAux (sRec k) sa 0 (List.replicate (2 ^ k) (none : Option Athlete))).length
        = 2 ^ k := by
    rw [placeAux_length, List.length_replicate]
  set nv : List (Option Athlete) :=
    placeAux (sRec k) sa 0 (List.replicate (2 ^ k) (none : Option Athlete)) with hnv
  by_cases hKzero : sa.length = 2 ^ k
  · have hdet_nil : detectByePositions nv = [] := by
      rw [List.eq_nil_iff_forall_not_mem]
      intro pos hpos
      obtain ⟨u, h1, h2, _⟩ := (hdet pos).mp hpos
      omega
    simp only [_optimize_bye_positions]
    rw [if_pos hdet_nil, hchar i hi]
    rw [show 2 ^ k - sa.length + i = i by omega]
    by_cases h1 : i < sa.length - 2 ^ (k - 1)
    · rw [if_pos h1, if_pos (by omega : i < sa.length)]
    · rw [if_neg h1]
      by_cases h2' : i < 2 ^ (k - 1)
      · exact absurd h2' (by omega)
      · rw [if_neg h2']
  · have hdet_ne : ¬ (detectByePositions nv = []) := by
      intro h
      have hmem := (hdet ((sRec k).getD (sa.length - 2 ^ (k - 1)) 0)).mpr
        ⟨sa.length - 2 ^ (k - 1), Nat.le_refl _, by omega, rfl⟩
      rw [h] at hmem
      simp at hmem
    simp only [_optimize_bye_positions]
    rw [if_neg hdet_ne]
    have hab : (sa.length - 2 ^ (k - 1)) + (2 ^ k - sa.length) ≤ (sRec k).length := by
      rw [hlenS]
      omega
    have hobp : List.filter (fun pos => decide (pos ∈ detectByePositions nv)) (sRec k)
        = ((sRec k).drop (sa.length - 2 ^ (k - 1))).take (2 ^ k - sa.length) := by
      refine filter_slice (sRec k) hndS _ _ _ ?_
      intro x hx
      rw [decide_eq_true_eq, hdet x, mem_slice_iff _ _ _ hab x]
      constructor
      · rintro ⟨u, hu1, hu2, hu3⟩
        refine ⟨u - (sa.length - 2 ^ (k - 1)), by omega, ?_⟩
        rw [show sa.length - 2 ^ (k - 1) + (u - (sa.length - 2 ^ (k - 1))) = u by omega]
        exact hu3
      · rintro ⟨t, ht, h3⟩
        exact ⟨sa.length - 2 ^ (k - 1) + t, by omega, by omega, h3⟩
    rw [hobp]
    have hsll : (((sRec k).drop (sa.length - 2 ^ (k - 1))).take (2 ^ k - sa.length)).length
        = 2 ^ k - sa.length := slice_length _ _ _ hab
    rw [hsll]
    have hfree : List.filter (fun pos =>
          decide (¬ pos ∈ ((sRec k).drop (sa.length - 2 ^ (k - 1))).take (2 ^ k - sa.length)))
        (sRec k)
        = (sRec k).take (sa.length - 2 ^ (k - 1))
          ++ ((sRec k).drop (sa.length - 2 ^ (k - 1))).drop (2 ^ k - sa.length) := by
      refine filter_not_slice (sRec k) hndS _ _ _ ?_
      intro x hx
      rw [decide_eq_true_eq]
    rw [hfree]
    have hdd : ((sRec k).drop (sa.length - 2 ^ (k - 1))).drop (2 ^ k - sa.length)
        = (sRec k).drop (2 ^ (k - 1)) := by
      rw [List.drop_drop]
      congr 1
      omega
    rw [hdd, hnaive_len]
    have hlt : ((sRec k).take (sa.length - 2 ^ (k - 1))).length = sa.length - 2 ^ (k - 1) := by
      rw [List.length_take, hlenS]
      omega
    have hsl_sub : (((sRec k).drop (sa.length - 2 ^ (k - 1))).take
        (2 ^ k - sa.length)).Sublist (sRec k) :=
      (List.take_sublist _ _).trans (List.drop_sublist _ _)
    have hsl_nd := List.Nodup.sublist hsl_sub hndS
    have hfree_sub : ((sRec k).take (sa.length - 2 ^ (k - 1))
        ++ (sRec k).drop (2 ^ (k - 1))).Sublist (sRec k) := by
      conv_rhs => rw [show sRec k = (sRec k).take (sa.length - 2 ^ (k - 1))
        ++ (sRec k).drop (sa.length - 2 ^ (k - 1)) from (List.take_append_drop _ _).symm]
      refine List.Sublist.append_left ?_ _
      rw [← hdd]
      exact List.drop_sublist _ _
    have hfree_nd := List.Nodup.sublist hfree_sub hndS
    have hfree_len : ((sRec k).take (sa.length - 2 ^ (k - 1))
        ++ (sRec k).drop (2 ^ (k - 1))).length = sa.length := by
      rw [List.length_append, hlt, List.length_drop, hlenS]
      omega
    have hfree_mem_lt : ∀ q ∈ (sRec k).take (sa.length - 2 ^ (k - 1))
        ++ (sRec k).drop (2 ^ (k - 1)), q < 2 ^ k :=
      fun q hq => (sRec_mem k q).mp (hfree_sub.subset hq)
    have hsl_mem_lt : ∀ q ∈ ((sRec k).drop (sa.length - 2 ^ (k - 1))).take
        (2 ^ k - sa.length), q < 2 ^ k :=
      fun q hq => (sRec_mem k q).mp (hsl_sub.subset hq)
    have hwb_len : (fillByEnum sa
        (((sRec k).drop (sa.length - 2 ^ (k - 1))).take (2 ^ k - sa.length)) 0
        (List.replicate (2 ^ k) (none : Option Athlete))).length = 2 ^ k := by
      rw [fillByEnum_length, List.length_replicate]
    by_cases h1 : i < sa.length - 2 ^ (k - 1)
    · rw [if_pos h1]
      have hposfree : ((sRec k).take (sa.length - 2 ^ (k - 1))
          ++ (sRec k).drop (2 ^ (k - 1))).getD i 0 = (sRec k).getD i 0 := by
        rw [getD_append_lt _ _ _ _ (by rw [hlt]; omega)]
        exact take_getD (sRec k) _ i h1 (by rw [hlenS]; omega)
      rw [← hposfree]
      rw [fillSeq_getD_hit sa _ _ _ i hfree_nd (by rw [hfree_len]; omega)
        (by intro q hq; rw [hwb_len]; exact hfree_mem_lt q hq)]
      rw [if_pos (by omega : 2 ^ k - sa.length + i < sa.length)]
    · by_cases h2' : i < 2 ^ (k - 1)
      · rw [if_neg h1, if_pos h2']
        have ht : i - (sa.length - 2 ^ (k - 1)) < 2 ^ k - sa.length := by omega
        have hpossl : (((sRec k).drop (sa.length - 2 ^ (k - 1))).take
            (2 ^ k - sa.length)).getD (i - (sa.length - 2 ^ (k - 1))) 0
            = (sRec k).getD i 0 := by
          rw [slice_getD _ _ _ _ ht hab]
          congr 1
          omega
        have hnotfree : ¬ ((sRec k).getD i 0 ∈ (sRec k).take (sa.length - 2 ^ (k - 1))
            ++ (sRec k).drop (2 ^ (k - 1))) := by
          intro hmem
          rcases List.mem_append.mp hmem with hm | hm
          · obtain ⟨t, htl, heq⟩ := List.mem_iff_getElem.mp hm
            have htl' : t < sa.length - 2 ^ (k - 1) := by
              rw [hlt] at htl
              omega
            have hti : t = i := by
              refine nodup_getD_inj (sRec k) hndS t i (by rw [hlenS]; omega)
                (by rw [hlenS]; omega) ?_
              rw [← take_getD (sRec k) (sa.length - 2 ^ (k - 1)) t htl' (by rw [hlenS]; omega)]
              rw [List.getD_eq_getElem _ _ htl]
              exact heq
            omega
          · obtain ⟨t, htl, heq⟩ := List.mem_iff_getElem.mp hm
            have htl' : 2 ^ (k - 1) + t < 2 ^ k := by
              rw [List.length_drop, hlenS] at htl
              omega
            have hti : 2 ^ (k - 1) + t = i := by
              refine nodup_getD_inj (sRec k) hndS _ i (by rw [hlenS]; omega)
                (by rw [hlenS]; omega) ?_
              rw [← drop_getD (sRec k) (2 ^ (k - 1)) t (by rw [hlenS]; omega)]
              rw [List.getD_eq_getElem _ _ htl]
              exact heq
            omega
        rw [fillSeq_getD_miss sa _ _ _ _ hnotfree]
        rw [← hpossl]
        rw [fillByEnum_getD_hit sa _ 0 _ _ hsl_nd (by rw [hsll]; exact ht)
          (by intro q hq; rw [List.length_replicate]; exact hsl_mem_lt q hq)]
        rw [if_pos (by omega : 0 + (i - (sa.length - 2 ^ (k - 1))) < sa.length)]
        rw [Nat.zero_add]
      · by_cases h3 : i < sa.length
        · rw [if_neg h1, if_neg h2', if_pos h3]
          have hposfree : ((sRec k).take (sa.length - 2 ^ (k - 1))
              ++ (sRec k).drop (2 ^ (k - 1))).getD
                ((sa.length - 2 ^ (k - 1)) + (i - 2 ^ (k - 1))) 0
              = (sRec k).getD i 0 := by
            rw [getD_append_ge _ _ _ _ (by rw [hlt]; omega)
              (by rw [hlt, List.length_drop, hlenS]; omega)]
            rw [hlt]
            rw [show sa.length - 2 ^ (k - 1) + (i - 2 ^ (k - 1)) - (sa.length - 2 ^ (k - 1))
                = i - 2 ^ (k - 1) by omega]
            rw [drop_getD (sRec k) _ _ (by rw [hlenS]; omega)]
            congr 1
            omega
          rw [← hposfree]
          rw [fillSeq_getD_hit sa _ _ _ _ hfree_nd (by rw [hfree_len]; omega)
            (by intro q hq; rw [hwb_len]; exact hfree_mem_lt q hq)]
          rw [if_pos (by omega : 2 ^ k - sa.length
            + (sa.length - 2 ^ (k - 1) + (i - 2 ^ (k - 1))) < sa.length)]
          rw [show 2 ^ k - sa.length + (sa.length - 2 ^ (k - 1) + (i - 2 ^ (k - 1))) = i by
            omega]
        · rw [if_neg h1, if_neg h2', if_neg h3]
          have hposfree : ((sRec k).take (sa.length - 2 ^ (k - 1))
              ++ (sRec k).drop (2 ^ (k - 1))).getD
                ((sa.length - 2 ^ (k - 1)) + (i - 2 ^ (k - 1))) 0
              = (sRec k).getD i 0 := by
            rw [getD_append_ge _ _ _ _ (by rw [hlt]; omega)
              (by rw [hlt, List.length_drop, hlenS]; omega)]
            rw [hlt]
            rw [show sa.length - 2 ^ (k - 1) + (i - 2 ^ (k - 1)) - (sa.length - 2 ^ (k - 1))
                = i - 2 ^ (k - 1) by omega]
            rw [drop_getD (sRec k) _ _ (by rw [hlenS]; omega)]
            congr 1
            omega
          rw [← hposfree]
          rw [fillSeq_getD_hit sa _ _ _ _ hfree_nd (by rw [hfree_len]; omega)
            (by intro q hq; rw [hwb_len]; exact hfree_mem_lt q hq)]
          rw [if_neg (by omega : ¬ (2 ^ k - sa.length
            + (sa.length - 2 ^ (k - 1) + (i - 2 ^ (k - 1))) < sa.length))]
          rw [hposfree]
          have hnotsl : ¬ ((sRec k).getD i 0
              ∈ ((sRec k).drop (sa.length - 2 ^ (k - 1))).take (2 ^ k - sa.length)) := by
            intro hmem
            obtain ⟨t, htb, heq⟩ := (mem_slice_iff _ _ _ hab _).mp hmem
            have := nodup_getD_inj (sRec k) hndS i (sa.length - 2 ^ (k - 1) + t)
              (by rw [hlenS]; omega) (by rw [hlenS]; omega) heq
            omega
          rw [fillByEnum_getD_miss sa _ 0 _ _ hnotsl]
          exact replicate_none_getD (2 ^ k) _

theorem initialBracketOf_closed_form (athletes : List Athlete) (h2 : 2 ≤ athletes.length) :
    ∀ i, i < 2 ^ ceilLog2 athletes.length →
      (initialBracketOf athletes).getD ((sRec (ceilLog2 athletes.length)).getD i 0) none
        = (if i < athletes.length - 2 ^ (ceilLog2 athletes.length - 1)
           then some ((_reassign_seeds athletes).getD
             (2 ^ ceilLog2 athletes.length - athletes.length + i) default)
           else if i < 2 ^ (ceilLog2 athletes.length - 1)
           then some ((_reassign_seeds athletes).getD
             (i - (athletes.length - 2 ^ (ceilLog2 athletes.length - 1))) default)
           else if i < athletes.length then some ((_reassign_seeds athletes).getD i default)
           else none) := by
  have hk : 1 ≤ ceilLog2 athletes.length := ceilLog2_pos athletes.length h2
  have hN1' : 2 ^ (ceilLog2 athletes.length - 1) < (_reassign_seeds athletes).length := by
    rw [reassign_length]
    exact pow_pred_ceilLog2_lt athletes.length h2
  have hN2' : (_reassign_seeds athletes).length ≤ 2 ^ ceilLog2 athletes.length := by
    rw [reassign_length]
    exact le_pow_ceilLog2 athletes.length
  have hinit : initialBracketOf athletes
      = _optimize_bye_positions
          (placeAux (sRec (ceilLog2 athletes.length)) (_reassign_seeds athletes) 0
            (List.replicate (2 ^ ceilLog2 athletes.length) (none : Option Athlete)))
          (sRec (ceilLog2 athletes.length)) (_reassign_seeds athletes) := by
    rw [initialBracketOf]
    simp only [_create_initial_bracket]
    rw [sort_reassigned, reassign_length]
    rw [show (_calculate_bracket_size athletes.length).1 = 2 ^ ceilLog2 athletes.length
      from rfl]
    rw [generate_seeding_order_two_pow]
  have hcf := optimize_closed_form (_reassign_seeds athletes) (ceilLog2 athletes.length)
    hk hN1' hN2'
  rw [reassign_length] at hcf
  intro i hi
  rw [hinit]
  exact hcf i hi

theorem range_double_getD (n t : Nat) (h : t < n) :
    ((List.range n).map (fun j => 2 * j)).getD t 0 = 2 * t := by
  rw [List.getD_eq_getElem _ _ (by simpa using h)]
  rw [List.getElem_map, List.getElem_range]

theorem getD_mem_take (l : List Athlete) (t K : Nat) (h1 : t < K) (h2 : t < l.length) :
    l.getD t default ∈ l.take K := by
  rw [List.getD_eq_getElem _ _ h2]
  refine List.mem_iff_getElem.mpr ⟨t, ?_, ?_⟩
  · rw [List.length_take]
    omega
  · rw [List.getElem_take]

theorem mem_take_getD (l : List Athlete) (K : Nat) (a : Athlete) (h : a ∈ l.take K) :
    ∃ t, t < K ∧ t < l.length ∧ a = l.getD t default := by
  obtain ⟨t, ht, heq⟩ := List.mem_iff_getElem.mp h
  have htl := ht
  rw [List.length_take] at htl
  have h1 : t < K := by omega
  have h2 : t < l.length := by omega
  refine ⟨t, h1, h2, ?_⟩
  rw [List.getD_eq_getElem _ _ h2]
  rw [List.getElem_take] at heq
  exact heq.symm

theorem firstRoundAux_getD (br : List (Option Athlete)) :
    ∀ (idxs : List Nat) (c t : Nat) (d : Match), t < idxs.length →
      ((firstRoundAux br idxs c).getD t d).athlete1 = br.getD (idxs.getD t 0) none ∧
      ((firstRoundAux br idxs c).getD t d).athlete2 = br.getD (idxs.getD t 0 + 1) none ∧
      ((firstRoundAux br idxs c).getD t d).winner =
        (if (br.getD (idxs.getD t 0) none).isSome && !(br.getD (idxs.getD t 0 + 1) none).isSome
         then br.getD (idxs.getD t 0) none
         else if (br.getD (idxs.getD t 0 + 1) none).isSome
             && !(br.getD (idxs.getD t 0) none).isSome
         then br.getD (idxs.getD t 0 + 1) none
         else none) := by
  intro idxs
  induction idxs with
  | nil => intro c t d ht; simp at ht
  | cons i rest ih =>
      intro c t d ht
      rw [firstRoundAux]
      cases t with
      | zero =>
          rw [List.getD_cons_zero]
          by_cases hb : (⟨br.getD i none, br.getD (i + 1) none, none, 0⟩ : Match).has_both_athletes
          · rw [if_pos hb, List.getD_cons_zero]
            refine ⟨rfl, rfl, ?_⟩
            rw [Match.has_both_athletes] at hb
            simp only at hb
            simp only [Bool.and_eq_true] at hb
            rw [hb.1, hb.2]
            simp
          · rw [if_neg hb]
            by_cases h2 : ((⟨br.getD i none, br.getD (i + 1) none, none, 0⟩ : Match).athlete1.isSome
                || (⟨br.getD i none, br.getD (i + 1) none, none, 0⟩ : Match).athlete2.isSome)
            · rw [if_pos h2, List.getD_cons_zero]
              refine ⟨process_bye_athlete1 _, process_bye_athlete2 _, ?_⟩
              rw [Match.process_bye]
              cases ha : (br.getD i none).isSome <;>
                cases hb2 : (br.getD (i + 1) none).isSome <;> simp_all
            · rw [if_neg h2, List.getD_cons_zero]
              refine ⟨rfl, rfl, ?_⟩
              cases ha : (br.getD i none).isSome <;>
                cases hb2 : (br.getD (i + 1) none).isSome <;> simp_all
      | succ t =>
          have htr : t < rest.length := by simpa using Nat.lt_of_succ_lt_succ ht
          rw [List.getD_cons_succ]
          by_cases hb : (⟨br.getD i none, br.getD (i + 1) none, none, 0⟩ : Match).has_both_athletes
          · rw [if_pos hb, List.getD_cons_succ]
            exact ih (c + 1) t d htr
          · rw [if_neg hb]
            by_cases h2 : ((⟨br.getD i none, br.getD (i + 1) none, none, 0⟩ : Match).athlete1.isSome
                || (⟨br.getD i none, br.getD (i + 1) none, none, 0⟩ : Match).athlete2.isSome)
            · rw [if_pos h2, List.getD_cons_succ]
              exact ih c t d htr
            · rw [if_neg h2, List.getD_cons_succ]
              exact ih c t d htr

theorem initialBracketOf_length (athletes : List Athlete) :
    (initialBracketOf athletes).length = 2 ^ ceilLog2 athletes.length := by
  rw [initialBracketOf, create_initial_bracket_length, reassign_length]
  rfl

theorem firstRoundOf_getD (athletes : List Athlete) (j : Nat) (d : Match)
    (hj : 2 * j + 1 < 2 ^ ceilLog2 athletes.length) :
    ((firstRoundOf athletes).getD j d).athlete1
        = (initialBracketOf athletes).getD (2 * j) none ∧
    ((firstRoundOf athletes).getD j d).athlete2
        = (initialBracketOf athletes).getD (2 * j + 1) none ∧
    ((firstRoundOf athletes).getD j d).winner =
      (if ((initialBracketOf athletes).getD (2 * j) none).isSome
          && !((initialBracketOf athletes).getD (2 * j + 1) none).isSome
       then (initialBracketOf athletes).getD (2 * j) none
       else if ((initialBracketOf athletes).getD (2 * j + 1) none).isSome
           && !((initialBracketOf athletes).getD (2 * j) none).isSome
       then (initialBracketOf athletes).getD (2 * j + 1) none
       else none) := by
  have hjr : j < (initialBracketOf athletes).length / 2 := by
    rw [initialBracketOf_length]
    omega
  have hlen : j < ((List.range ((initialBracketOf athletes).length / 2)).map
      (fun j => 2 * j)).length := by
    simpa using hjr
  have hchar := firstRoundAux_getD (initialBracketOf athletes)
    ((List.range ((initialBracketOf athletes).length / 2)).map (fun j => 2 * j)) 1 j d hlen
  rw [range_double_getD _ j hjr] at hchar
  exact hchar

/-- C2: no first-round match has both athlete slots empty, for any input. -/
theorem c2_no_empty_first_round_match (athletes : List Athlete) (category : String) :
    ∀ m ∈ (construct athletes category).rounds.getD 0 [],
      m.athlete1.isSome = true ∨ m.athlete2.isSome = true := by
  by_cases hlen : 1 < athletes.length
  · intro m hm
    rw [construct_first_round athletes category hlen] at hm
    obtain ⟨j, hj, hjm⟩ := List.mem_iff_getElem.mp hm
    have hm' : (firstRoundOf athletes).getD j default = m := by
      rw [List.getD_eq_getElem _ _ hj]
      exact hjm
    subst hm'
    have hk : 1 ≤ ceilLog2 athletes.length := ceilLog2_pos athletes.length (by omega)
    have hky : ceilLog2 athletes.length - 1 + 1 = ceilLog2 athletes.length := by omega
    have hBH : 2 ^ ceilLog2 athletes.length = 2 * 2 ^ (ceilLog2 athletes.length - 1) := by
      conv_lhs => rw [show ceilLog2 athletes.length = ceilLog2 athletes.length - 1 + 1 by omega]
      rw [pow_succ]
      ring
    have hN1 := pow_pred_ceilLog2_lt athletes.length (by omega)
    have hjH : j < 2 ^ (ceilLog2 athletes.length - 1) := by
      have := hj
      rw [firstRoundOf_length] at this
      have hb : (_calculate_bracket_size athletes.length).1 = 2 ^ ceilLog2 athletes.length :=
        rfl
      rw [hb] at this
      omega
    have hchar := firstRoundOf_getD athletes j default (by omega)
    have couple := sRec_couple (ceilLog2 athletes.length - 1) j hjH
    rw [hky] at couple
    obtain ⟨u, huH, hcpl⟩ := couple
    have hcf := initialBracketOf_closed_form athletes (by omega)
    have hsome : ((initialBracketOf athletes).getD
        ((sRec (ceilLog2 athletes.length)).getD u 0) none).isSome = true := by
      rw [hcf u (by omega)]
      by_cases hx : u < athletes.length - 2 ^ (ceilLog2 athletes.length - 1)
      · rw [if_pos hx]
        rfl
      · rw [if_neg hx, if_pos huH]
        rfl
    rcases hcpl with ⟨hA, _⟩ | ⟨hA, _⟩
    · left
      rw [hchar.1, ← hA]
      exact hsome
    · right
      rw [hchar.2.1, ← hA]
      exact hsome
  · intro m hm
    rw [(construct_small athletes category (by omega)).1] at hm
    rw [show (([] : List (List Match)).getD 0 []) = [] from rfl] at hm
    simp at hm

theorem c2_witness :
    ((construct trio "X").rounds.getD 0 []).getD 0 default
        ∈ (construct trio "X").rounds.getD 0 [] ∧
    ((((construct trio "X").rounds.getD 0 []).getD 0 default).athlete1.isSome = true ∨
      (((construct trio "X").rounds.getD 0 []).getD 0 default).athlete2.isSome = true) :=
  ⟨by decide, c2_no_empty_first_round_match trio "X"
    (((construct trio "X").rounds.getD 0 []).getD 0 default) (by decide)⟩

/-- C1: for at least two athletes, the competitors who sit in first-round bye
matches (and hence advance to round 2 without fighting) are exactly the
`byes = bracket_size - N` best-ranked athletes (seeds `1..byes`). -/
theorem c1_byes_go_to_best_seeds (athletes : List Athlete) (category : String)
    (h2 : 2 ≤ athletes.length) (a : Athlete) :
    (∃ m, m ∈ (construct athletes category).rounds.getD 0 [] ∧ m.is_bye = true ∧
      m.winner = some a)
    ↔ a ∈ (_reassign_seeds athletes).take (_calculate_bracket_size athletes.length).2 := by
  have hk : 1 ≤ ceilLog2 athletes.length := ceilLog2_pos athletes.length h2
  have hky : ceilLog2 athletes.length - 1 + 1 = ceilLog2 athletes.length := by omega
  have hBH : 2 ^ ceilLog2 athletes.length = 2 * 2 ^ (ceilLog2 athletes.length - 1) := by
    conv_lhs => rw [show ceilLog2 athletes.length = ceilLog2 athletes.length - 1 + 1 by omega]
    rw [pow_succ]
    ring
  have hN1 := pow_pred_ceilLog2_lt athletes.length h2
  have hN2 := le_pow_ceilLog2 athletes.length
  have hcf := initialBracketOf_closed_form athletes h2
  have hlenS : (sRec (ceilLog2 athletes.length)).length = 2 ^ ceilLog2 athletes.length :=
    sRec_length _
  have hndS := sRec_nodup (ceilLog2 athletes.length)
  have hK : (_calculate_bracket_size athletes.length).2
      = 2 ^ ceilLog2 athletes.length - athletes.length := rfl
  have hfrl : (firstRoundOf athletes).length = 2 ^ (ceilLog2 athletes.length - 1) := by
    rw [firstRoundOf_length]
    rw [show (_calculate_bracket_size athletes.length).1 = 2 ^ ceilLog2 athletes.length
      from rfl]
    omega
  have hral : (_reassign_seeds athletes).length = athletes.length := reassign_length athletes
  rw [construct_first_round athletes category (by omega)]
  constructor
  · rintro ⟨m, hm, hbye, hwin⟩
    obtain ⟨j, hj, hjm⟩ := List.mem_iff_getElem.mp hm
    have hm' : (firstRoundOf athletes).getD j default = m := by
      rw [List.getD_eq_getElem _ _ hj]
      exact hjm
    subst hm'
    have hjH : j < 2 ^ (ceilLog2 athletes.length - 1) := by rw [hfrl] at hj; exact hj
    have hchar := firstRoundOf_getD athletes j default (by omega)
    have couple := sRec_couple (ceilLog2 athletes.length - 1) j hjH
    rw [hky] at couple
    obtain ⟨u, huH, hcpl⟩ := couple
    have huB : u < 2 ^ ceilLog2 athletes.length := by omega
    have huHB : u + 2 ^ (ceilLog2 athletes.length - 1) < 2 ^ ceilLog2 athletes.length := by
      omega
    rcases hcpl with ⟨hA, hB2⟩ | ⟨hA, hB2⟩
    · by_cases huN : u + 2 ^ (ceilLog2 athletes.length - 1) < athletes.length
      · exfalso
        have hs1 : ((initialBracketOf athletes).getD (2 * j) none).isSome = true := by
          rw [← hA, hcf u huB]
          by_cases hx : u < athletes.length - 2 ^ (ceilLog2 athletes.length - 1)
          · rw [if_pos hx]
            rfl
          · rw [if_neg hx, if_pos huH]
            rfl
        have hs2 : ((initialBracketOf athletes).getD (2 * j + 1) none).isSome = true := by
          rw [← hB2, hcf _ huHB, if_neg (by omega), if_neg (by omega), if_pos huN]
          rfl
        rw [Match.is_bye, hchar.1, hchar.2.1, hs1, hs2] at hbye
        simp at hbye
      · have hv1 : (initialBracketOf athletes).getD (2 * j) none
            = some ((_reassign_seeds athletes).getD
                (u - (athletes.length - 2 ^ (ceilLog2 athletes.length - 1))) default) := by
          rw [← hA, hcf u huB, if_neg (by omega), if_pos huH]
        have hv2 : (initialBracketOf athletes).getD (2 * j + 1) none = none := by
          rw [← hB2, hcf _ huHB, if_neg (by omega), if_neg (by omega), if_neg (by omega)]
        rw [hchar.2.2, hv1, hv2] at hwin
        have hred : (if ((some ((_reassign_seeds athletes).getD
              (u - (athletes.length - 2 ^ (ceilLog2 athletes.length - 1))) default)
                : Option Athlete).isSome && !(none : Option Athlete).isSome)
            then (some ((_reassign_seeds athletes).getD
              (u - (athletes.length - 2 ^ (ceilLog2 athletes.length - 1))) default)
                : Option Athlete)
            else if ((none : Option Athlete).isSome
                && !(some ((_reassign_seeds athletes).getD
                  (u - (athletes.length - 2 ^ (ceilLog2 athletes.length - 1))) default)
                    : Option Athlete).isSome)
            then (none : Option Athlete) else none)
            = some ((_reassign_seeds athletes).getD
                (u - (athletes.length - 2 ^ (ceilLog2 athletes.length - 1))) default) := by
          simp
        rw [hred] at hwin
        have haeq := Option.some.inj hwin
        rw [hK, ← haeq]
        apply getD_mem_take
        · omega
        · rw [hral]
          omega
    · by_cases huN : u + 2 ^ (ceilLog2 athletes.length - 1) < athletes.length
      · exfalso
        have hs1 : ((initialBracketOf athletes).getD (2 * j + 1) none).isSome = true := by
          rw [← hA, hcf u huB]
          by_cases hx : u < athletes.length - 2 ^ (ceilLog2 athletes.length - 1)
          · rw [if_pos hx]
            rfl
          · rw [if_neg hx, if_pos huH]
            rfl
        have hs2 : ((initialBracketOf athletes).getD (2 * j) none).isSome = true := by
          rw [← hB2, hcf _ huHB, if_neg (by omega), if_neg (by omega), if_pos huN]
          rfl
        rw [Match.is_bye, hchar.1, hchar.2.1, hs1, hs2] at hbye
        simp at hbye
      · have hv2 : (initialBracketOf athletes).getD (2 * j + 1) none
            = some ((_reassign_seeds athletes).getD
                (u - (athletes.length - 2 ^ (ceilLog2 athletes.length - 1))) default) := by
          rw [← hA, hcf u huB, if_neg (by omega), if_pos huH]
        have hv1 : (initialBracketOf athletes).getD (2 * j) none = none := by
          rw [← hB2, hcf _ huHB, if_neg (by omega), if_neg (by omega), if_neg (by omega)]
        rw [hchar.2.2, hv1, hv2] at hwin
        have hred : (if ((none : Option Athlete).isSome
              && !(some ((_reassign_seeds athletes).getD
                (u - (athletes.length - 2 ^ (ceilLog2 athletes.length - 1))) default)
                  : Option Athlete).isSome)
            then (none : Option Athlete)
            else if ((some ((_reassign_seeds athletes).getD
                (u - (athletes.length - 2 ^ (ceilLog2 athletes.length - 1))) default)
                  : Option Athlete).isSome && !(none : Option Athlete).isSome)
            then (some ((_reassign_seeds athletes).getD
              (u - (athletes.length - 2 ^ (ceilLog2 athletes.length - 1))) default)
                : Option Athlete)
            else none)
            = some ((_reassign_seeds athletes).getD
                (u - (athletes.length - 2 ^ (ceilLog2 athletes.length - 1))) default) := by
          simp
        rw [hred] at hwin
        have haeq := Option.some.inj hwin
        rw [hK, ← haeq]
        apply getD_mem_take
        · omega
        · rw [hral]
          omega
  · intro ha
    rw [hK] at ha
    obtain ⟨t, htK, htN, hta⟩ := mem_take_getD _ _ _ ha
    rw [hral] at htN
    obtain ⟨u, hu_def⟩ : ∃ u, u = athletes.length - 2 ^ (ceilLog2 athletes.length - 1) + t :=
      ⟨_, rfl⟩
    have huH : u < 2 ^ (ceilLog2 athletes.length - 1) := by omega
    have hSuB : (sRec (ceilLog2 athletes.length)).getD u 0 < 2 ^ ceilLog2 athletes.length :=
      sRec_getD_lt _ u (by omega)
    have hjH : (sRec (ceilLog2 athletes.length)).getD u 0 / 2
        < 2 ^ (ceilLog2 athletes.length - 1) := by omega
    have hjfr : (sRec (ceilLog2 athletes.length)).getD u 0 / 2
        < (firstRoundOf athletes).length := by
      rw [hfrl]
      omega
    have hchar := firstRoundOf_getD athletes ((sRec (ceilLog2 athletes.length)).getD u 0 / 2)
      default (by omega)
    have couple := sRec_couple (ceilLog2 athletes.length - 1)
      ((sRec (ceilLog2 athletes.length)).getD u 0 / 2) hjH
    rw [hky] at couple
    obtain ⟨w, hwH, hcpl⟩ := couple
    have hj2 : (sRec (ceilLog2 athletes.length)).getD u 0
        = 2 * ((sRec (ceilLog2 athletes.length)).getD u 0 / 2)
        ∨ (sRec (ceilLog2 athletes.length)).getD u 0
        = 2 * ((sRec (ceilLog2 athletes.length)).getD u 0 / 2) + 1 := by omega
    have hwu : w = u := by
      rcases hcpl with ⟨hA, hB2⟩ | ⟨hA, hB2⟩ <;> rcases hj2 with h | h
      · exact nodup_getD_inj _ hndS w u (by rw [hlenS]; omega) (by rw [hlenS]; omega)
          (by rw [hA, ← h])
      · exfalso
        have := nodup_getD_inj _ hndS (w + 2 ^ (ceilLog2 athletes.length - 1)) u
          (by rw [hlenS]; omega) (by rw [hlenS]; omega) (by rw [hB2, ← h])
        omega
      · exfalso
        have := nodup_getD_inj _ hndS (w + 2 ^ (ceilLog2 athletes.length - 1)) u
          (by rw [hlenS]; omega) (by rw [hlenS]; omega) (by rw [hB2, ← h])
        omega
      · exact nodup_getD_inj _ hndS w u (by rw [hlenS]; omega) (by rw [hlenS]; omega)
          (by rw [hA, ← h])
    rw [hwu] at hcpl
    have hvals : ((initialBracketOf athletes).getD
          (2 * ((sRec (ceilLog2 athletes.length)).getD u 0 / 2)) none
            = some ((_reassign_seeds athletes).getD t default) ∧
        (initialBracketOf athletes).getD
          (2 * ((sRec (ceilLog2 athletes.length)).getD u 0 / 2) + 1) none = none)
        ∨ ((initialBracketOf athletes).getD
          (2 * ((sRec (ceilLog2 athletes.length)).getD u 0 / 2)) none = none ∧
        (initialBracketOf athletes).getD
          (2 * ((sRec (ceilLog2 athletes.length)).getD u 0 / 2) + 1) none
            = some ((_reassign_seeds athletes).getD t default)) := by
      rcases hcpl with ⟨hA, hB2⟩ | ⟨hA, hB2⟩
      · left
        constructor
        · rw [← hA, hcf u (by omega), if_neg (by omega), if_pos huH]
          rw [show u - (athletes.length - 2 ^ (ceilLog2 athletes.length - 1)) = t by omega]
        · rw [← hB2, hcf (u + 2 ^ (ceilLog2 athletes.length - 1)) (by omega),
            if_neg (by omega), if_neg (by omega), if_neg (by omega)]
      · right
        constructor
        · rw [← hB2, hcf (u + 2 ^ (ceilLog2 athletes.length - 1)) (by omega),
            if_neg (by omega), if_neg (by omega), if_neg (by omega)]
        · rw [← hA, hcf u (by omega), if_neg (by omega), if_pos huH]
          rw [show u - (athletes.length - 2 ^ (ceilLog2 athletes.length - 1)) = t by omega]
    refine ⟨(firstRoundOf athletes).getD
        ((sRec (ceilLog2 athletes.length)).getD u 0 / 2) default,
      getD_mem_of_lt _ _ default hjfr, ?_, ?_⟩
    · rcases hvals with ⟨hv1, hv2⟩ | ⟨hv1, hv2⟩ <;>
        rw [Match.is_bye, hchar.1, hchar.2.1, hv1, hv2] <;> simp
    · rcases hvals with ⟨hv1, hv2⟩ | ⟨hv1, hv2⟩ <;>
        rw [hchar.2.2, hv1, hv2, hta] <;> simp

theorem c1_witness :
    2 ≤ trio.length ∧
    ((∃ m, m ∈ (construct trio "X").rounds.getD 0 [] ∧ m.is_bye = true ∧
        m.winner = some ((_reassign_seeds trio).getD 0 default))
      ↔ (_reassign_seeds trio).getD 0 default
          ∈ (_reassign_seeds trio).take (_calculate_bracket_size trio.length).2) :=
  ⟨by decide,
   c1_byes_go_to_best_seeds trio "X" (by decide) ((_reassign_seeds trio).getD 0 default)⟩

end Procompetidor
